import Mathlib

set_option maxRecDepth 100000

attribute [local semireducible] Rat.mul Rat.add Rat.sub Rat.inv Rat.ofScientific

/-
Shallow embedding of the selcald SELCAL decoder (src/selcald/tones.py and
src/selcald/receiver.py), together with proofs about the claims of the
specification.  Correlation values and scores are modelled as exact
rationals; Python lists of 16 floats become functions `Fin 16 → ℚ`;
Python's `datetime.now()` timestamp is passed in as an explicit string
parameter at each call; the event-log file becomes a list of the lines
appended to it.
-/

namespace Selcald

/-- The 16 SELCAL tone frequencies (Hz), `TONES` in tones.py. -/
def TONES : List ℚ :=
  [312.6, 346.7, 384.6, 426.6, 473.2, 524.8, 582.1, 645.7,
   716.1, 794.3, 881.0, 977.2, 1083.9, 1202.3, 1333.5, 1479.1]

/-- The `ALPHABET` list of tones.py (phonetic names; only the first letter is used). -/
def ALPHABET : List String :=
  ["Alpha", "Bravo", "Charlie", "Delta", "Echo", "Foxtrot", "Golf", "Hotel",
   "Juliette", "Kilo", "Lima", "Mike", "Papa", "Quebec", "Romeo", "Sierra"]

/-- A 16-entry vector of rationals (a Python list of 16 floats). -/
abbrev Vec16 := Fin 16 → ℚ

/-- The tone indices 0..15, the loop `for tone in range(0, len(TONES))`. -/
def toneIdxList : List (Fin 16) := List.finRange 16

/-- Python list indexing on a 16-element list for an index in [-16, 15]:
a negative index wraps around (`xs[-1]` is the last element). -/
def pyIdx (i : Int) : Fin 16 :=
  ⟨(i % 16).toNat, by
    have h0 : 0 ≤ i % 16 := Int.emod_nonneg i (by norm_num)
    have h1 : i % 16 < 16 := Int.emod_lt_of_pos i (by norm_num)
    omega⟩

/-- Python `vals[i]` on a 16-entry vector, with negative-index wrap-around. -/
def pyGetQ (vals : Vec16) (i : Int) : ℚ := vals (pyIdx i)

/-- Python `ALPHABET[idx][:1]`: the first letter of the idx-th phonetic name,
with negative-index wrap-around (`ALPHABET[-1][:1] = "S"`). -/
def letter (i : Int) : String := (ALPHABET.getD (pyIdx i) "").take 1

/-- A per-frame record of tone statistics, class `TonesRecord` of tones.py.
All fields are those computed by `computeStats` / `computeScores`. -/
structure TonesRecord where
  corr : Vec16
  max1idx : Int
  max2idx : Int
  max : ℚ
  avg : ℚ
  scores : Vec16
  gtc : String

/-- First loop of `TonesRecord.computeStats`: running maximum of `corr`
starting from `max1 = 0.0, idx1 = -1`. -/
def maxScan (corr : Vec16) : ℚ × Int :=
  toneIdxList.foldl
    (fun acc t => if corr t > acc.1 then (corr t, (t : Int)) else acc) (0, -1)

/-- One step of the second loop of `computeStats`: a competing tone replaces
the current best alternative only when it clears the local gap test
`new - cand > (max - cand) / 4`. -/
def gapStep (corr : Vec16) (max1 : ℚ) (idx1 : Int) (acc : ℚ × Int) (t : Fin 16) :
    ℚ × Int :=
  if (t : Int) ≠ idx1 ∧ corr t > acc.1 ∧ corr t - acc.1 > (max1 - acc.1) / 4 then
    (corr t, (t : Int))
  else acc

/-- Second loop of `computeStats`: the second-maximum scan with the gap test,
starting from `max2 = 0.0, idx2 = -1`. -/
def secondScan (corr : Vec16) (max1 : ℚ) (idx1 : Int) : ℚ × Int :=
  toneIdxList.foldl (gapStep corr max1 idx1) (0, -1)

/-- Sum of the 16 correlation values, the `tot` accumulator of `computeStats`. -/
def totCorr (corr : Vec16) : ℚ := (toneIdxList.map corr).sum

/-- The `score_bin_size` class attribute of `TonesRecord`. -/
def score_bin_size : ℚ := 5

/-- The score vector of `TonesRecord.computeScores`, given the (already
swapped) max indices, the maximum and the average.  With exact rational
arithmetic `round(binIdx * bin_score, 1)` is the identity on the values
`binIdx * 0.2` that occur, so the rounding is dropped. -/
def computeScores (corr : Vec16) (idx1 idx2 : Int) (mx avg : ℚ) : Vec16 :=
  fun t =>
    if (t : Int) = idx1 ∨ (t : Int) = idx2 then 1
    else if corr t > avg then
      ((⌊(corr t - avg) / ((mx - avg) / score_bin_size)⌋ : Int) : ℚ) / score_bin_size
    else 0

/-- `TonesRecord.computeStats` (which ends by calling `computeScores`):
builds the whole record from a 16-entry correlation vector. -/
def computeStats (corr : Vec16) : TonesRecord :=
  let m1 := maxScan corr
  let m2 := secondScan corr m1.1 m1.2
  let idx1 := if m1.2 > m2.2 then m2.2 else m1.2
  let idx2 := if m1.2 > m2.2 then m1.2 else m2.2
  let avg := totCorr corr / 16
  { corr := corr
    max1idx := idx1
    max2idx := idx2
    max := m1.1
    avg := avg
    scores := computeScores corr idx1 idx2 m1.1 avg
    gtc := letter idx1 ++ letter idx2 }

/-- Build a 16-entry vector from a list (missing entries default to 0). -/
def corrOf (xs : List ℚ) : Vec16 := fun t => xs.getD t 0

/-- Record with dominant tones A,B (indices 0,1). -/
def rAB : TonesRecord :=
  computeStats (corrOf [10, 10, 1, 1, 1, 1, 1, 1, 1, 1, 1, 1, 1, 1, 1, 1])

/-- Record with dominant tones C,D (indices 2,3). -/
def rCD : TonesRecord :=
  computeStats (corrOf [1, 1, 10, 10, 1, 1, 1, 1, 1, 1, 1, 1, 1, 1, 1, 1])

/-- Record with dominant tones E,F (indices 4,5). -/
def rEF : TonesRecord :=
  computeStats (corrOf [1, 1, 1, 1, 10, 10, 1, 1, 1, 1, 1, 1, 1, 1, 1, 1])

/-- Record with dominant tones A,B and a fractional score 0.4 at index 4. -/
def rABx : TonesRecord :=
  computeStats (corrOf [10, 10, 1, 1, 6, 1, 1, 1, 1, 1, 1, 1, 1, 1, 1, 1])

/-- Degenerate record built from an all-zero correlation vector. -/
def rZero : TonesRecord := computeStats (corrOf [])

example : rAB.gtc = "AB" ∧ rAB.max1idx = 0 ∧ rAB.max2idx = 1 := by decide
example : rAB.scores ⟨0, by norm_num⟩ = 1 ∧ rAB.scores ⟨2, by norm_num⟩ = 0 := by decide
example : rABx.scores ⟨4, by norm_num⟩ = 2/5 := by decide
example : rZero.max1idx = -1 ∧ rZero.max2idx = -1 ∧ rZero.gtc = "SS" := by decide

/-
The TonesMonitor sliding decoder.  A Python dict with insertion order
becomes an association list; `deque` becomes a list (append at the back,
pop from the front); the mutable 16-entry lists become `Fin 16 → ℚ` /
`Fin 16 → ℕ`.
-/

/-- A TGC-to-count mapping (`tonesCnt1` / `tonesCnt2`), as an association
list in insertion order.  Keys are unique by construction, as in a dict. -/
abbrev CntMap := List (String × Int)

/-- `TonesMonitor.incCounter`: add 1 to the count of `gtc`, inserting the
key with count 1 when absent. -/
def incCounter : CntMap → String → CntMap
  | [], gtc => [(gtc, 1)]
  | e :: rest, gtc =>
    if e.1 = gtc then (e.1, e.2 + 1) :: rest else e :: incCounter rest gtc

/-- `TonesMonitor.decCounter`: subtract 1 from the count of `gtc` when the
key is present, otherwise do nothing. -/
def decCounter : CntMap → String → CntMap
  | [], _ => []
  | e :: rest, gtc =>
    if e.1 = gtc then (e.1, e.2 - 1) :: rest else e :: decCounter rest gtc

/-- Increment a per-tone counter list at a Python index (wrap-around at -1). -/
def bump (f : Fin 16 → ℕ) (i : Int) : Fin 16 → ℕ :=
  fun t => if t = pyIdx i then f t + 1 else f t

/-- Pointwise update of `TonesMonitor.incScores`: add the record's scores to
the running score list and count its two max tones. -/
def incScores (scores : Vec16) (maxCnt : Fin 16 → ℕ) (r : TonesRecord) :
    Vec16 × (Fin 16 → ℕ) :=
  (fun t => scores t + r.scores t, bump (bump maxCnt r.max1idx) r.max2idx)

/-- Pointwise update of `TonesMonitor.decScores`: subtract the record's
scores from the entries that are currently positive (entries that are not
positive are left alone; there is no clamping), and — as in the source,
which increments rather than decrements here — count its two max tones up. -/
def decScores (scores : Vec16) (maxCnt : Fin 16 → ℕ) (r : TonesRecord) :
    Vec16 × (Fin 16 → ℕ) :=
  (fun t => if scores t > 0 then scores t - r.scores t else scores t,
   bump (bump maxCnt r.max1idx) r.max2idx)

/-- Accumulator of the `top2` helper of tones.py: current best and second
best value with their indices. -/
structure Top2Acc where
  idx1 : Int
  max1 : ℚ
  idx2 : Int
  max2 : ℚ

/-- One loop iteration of `top2`: skip excluded indices; a new best demotes
the previous best to second place only once a real best exists. -/
def top2Step (vals : Vec16) (excl : List Int) (a : Top2Acc) (t : Fin 16) : Top2Acc :=
  if (t : Int) ∈ excl then a
  else if vals t > a.max1 then
    if a.idx1 ≥ 0 then ⟨(t : Int), vals t, a.idx1, a.max1⟩
    else ⟨(t : Int), vals t, a.idx2, a.max2⟩
  else if vals t > a.max2 then ⟨a.idx1, a.max1, (t : Int), vals t⟩
  else a

/-- The `top2` helper of tones.py: top-two indices of a 16-entry value
list (possibly -1 when nothing qualifies), returned in ascending index
order together with the values at those (Python) indices. -/
def top2 (vals : Vec16) (excl : List Int) : (Int × Int) × (ℚ × ℚ) :=
  let a := toneIdxList.foldl (top2Step vals excl) ⟨-1, -1, -1, -1⟩
  let i1 := if a.idx1 > a.idx2 then a.idx2 else a.idx1
  let i2 := if a.idx1 > a.idx2 then a.idx1 else a.idx2
  ((i1, i2), (pyGetQ vals i1, pyGetQ vals i2))

/-- The mutable state of a `TonesMonitor` (queues, counters, running score
and max-count lists, and the two latched pairs used for edge detection).
In the source these all live at class scope; see the C8 theorems. -/
structure MonState where
  tonesQ1 : List TonesRecord := []
  tonesQ2 : List TonesRecord := []
  tonesCnt1 : CntMap := []
  tonesCnt2 : CntMap := []
  tonesQ1Score : Vec16 := fun _ => 0
  tonesQ2Score : Vec16 := fun _ => 0
  tonesQ1MaxCnt : Fin 16 → ℕ := fun _ => 0
  tonesQ2MaxCnt : Fin 16 → ℕ := fun _ => 0
  lastSelcall : List (Option String) := []
  lastSelcall_BS : List String := []

/-- The freshly constructed monitor state. -/
def freshState : MonState := {}

/-- The result dictionary of `trackTones`.  `is_active_BS` is an `Option`
because the key is absent from the initial dictionary and only written by
`trackByScore`.  The two `didReset` fields record which falling-edge reset
branch ran during the call (observations of the branch taken; the source
has no corresponding dict entry). -/
structure Output where
  current_tgc : String
  is_active : Bool := false
  selcal : Option String := none
  selcal_BS : Option String := none
  is_active_BS : Option Bool := none
  tg1 : Option String := none
  tg1_cnt : Int := 0
  tg2 : Option String := none
  tg2_cnt : Int := 0
  didResetCnt : Bool := false
  didResetScores : Bool := false
deriving DecidableEq

/-- Python `f"{o}"` for a value that is a string or None. -/
def optStr : Option String → String
  | none => "None"
  | some s => s

/-- Round a rational to the nearest integer, ties to even (the rounding
used by Python's fixed-point formatting). -/
def roundHalfEven (q : ℚ) : Int :=
  let f := ⌊q⌋
  let r := q - (f : ℚ)
  if r < 1/2 then f
  else if r > 1/2 then f + 1
  else if Even f then f else f + 1

/-- Python `f"{q:.01f}"`: fixed-point with one fractional digit. -/
def fmtQ1 (q : ℚ) : String :=
  let n := roundHalfEven (10 * q)
  (if n < 0 then "-" else "") ++ toString (n.natAbs / 10) ++ "." ++ toString (n.natAbs % 10)

/-- Python `f"{freq_hz/1000:.01f}"`: the frequency in kHz with one
fractional digit. -/
def fmtKHz (freq_hz : Int) : String := fmtQ1 ((freq_hz : ℚ) / 1000)

/-- The event line of `trackByMaxTones` (the argument of
`writeStringToFile`). -/
def mkMaxToneEvent (ts : String) (freq_hz : Int) (sc : String) : String :=
  ts ++ " " ++ fmtKHz freq_hz ++ " kHz " ++ sc ++ " ~ SELCAL_BYMAXTONE\n"

/-- The `stats` debug string interpolated into the by-score event line. -/
def statsStr (q1a q1b q2a q2b : Int) (v1a v1b v2a v2b : ℚ) : String :=
  " [ Score: (Q1: " ++ toString q1a ++ ":" ++ fmtQ1 v1a ++ ", " ++
    toString q1b ++ ":" ++ fmtQ1 v1b ++ ")  Q2: (" ++
    toString q2a ++ ":" ++ fmtQ1 v2a ++ ", " ++
    toString q2b ++ ":" ++ fmtQ1 v2b ++ ") ] "

/-- The event line of `trackByScore` (note the extra `- STATS: [...]`
segment after the tag). -/
def mkByScoreEvent (ts : String) (freq_hz : Int) (sc : String) (stats : String) : String :=
  ts ++ " " ++ fmtKHz freq_hz ++ " kHz " ++ sc ++ " ~ SELCAL_BYSCORE - STATS: [" ++
    stats ++ "]\n"

/-- The Q2 append at the top of `trackByMaxTones`: push the new record
onto Q2 and do the counter and score bookkeeping. -/
def pushQ2 (s : MonState) (trec : TonesRecord) : MonState :=
  let p2 := incScores s.tonesQ2Score s.tonesQ2MaxCnt trec
  { s with tonesQ2 := s.tonesQ2 ++ [trec]
           tonesCnt2 := incCounter s.tonesCnt2 trec.gtc
           tonesQ2Score := p2.1
           tonesQ2MaxCnt := p2.2 }

/-- The Q2-to-Q1 roll of `trackByMaxTones`: pop the oldest record of Q2
(with its counter and score bookkeeping) and push it onto Q1. -/
def popQ2ToQ1 (s : MonState) : MonState :=
  match s.tonesQ2 with
  | [] => s
  | old2 :: q2rest =>
    let d2 := decScores s.tonesQ2Score s.tonesQ2MaxCnt old2
    let p1 := incScores s.tonesQ1Score s.tonesQ1MaxCnt old2
    { s with tonesQ2 := q2rest
             tonesCnt2 := decCounter s.tonesCnt2 old2.gtc
             tonesQ2Score := d2.1
             tonesQ2MaxCnt := d2.2
             tonesQ1 := s.tonesQ1 ++ [old2]
             tonesCnt1 := incCounter s.tonesCnt1 old2.gtc
             tonesQ1Score := p1.1
             tonesQ1MaxCnt := p1.2 }

/-- The Q1 eviction of `trackByMaxTones`: pop the oldest record of Q1
with its counter and score bookkeeping. -/
def popQ1 (s : MonState) : MonState :=
  match s.tonesQ1 with
  | [] => s
  | old1 :: q1rest =>
    let d1 := decScores s.tonesQ1Score s.tonesQ1MaxCnt old1
    { s with tonesQ1 := q1rest
             tonesCnt1 := decCounter s.tonesCnt1 old1.gtc
             tonesQ1Score := d1.1
             tonesQ1MaxCnt := d1.2 }

/-- Queue maintenance at the top of `trackByMaxTones`: append the new
record to Q2; when Q2 overflows the window, roll its oldest record into
Q1; when Q1 then overflows, evict its oldest record. -/
def updateQueues (s : MonState) (trec : TonesRecord) (ws : ℕ) : MonState :=
  let s := pushQ2 s trec
  if s.tonesQ2.length > ws then
    let s := popQ2ToQ1 s
    if s.tonesQ1.length > ws then popQ1 s
    else s
  else s

/-- One step of the counter scans of `trackByMaxTones`: keep the key with
the strictly largest count seen so far, skipping a key equal to `excl`
(`excl = none` imposes no restriction, like Python's `x != None`). -/
def scanStep (excl : Option String) (acc : Option String × Int) (e : String × Int) :
    Option String × Int :=
  if excl ≠ some e.1 ∧ e.2 > acc.2 then (some e.1, e.2) else acc

/-- The counter scan of `trackByMaxTones`: the key of `m` with the highest
count (first maximizer in insertion order), skipping `excl`. -/
def scanMaxTgc (m : CntMap) (excl : Option String) : Option String × Int :=
  m.foldl (scanStep excl) (none, 0)

/-- `TonesMonitor.trackByMaxTones`: queue maintenance, the two counter
scans, the activity decision with rising-edge logging and the falling-edge
counter reset. -/
def trackByMaxTones (freq_hz : Int) (ts : String) (s : MonState) (trec : TonesRecord)
    (ws : ℕ) (mgc : Int) (res : Output) : MonState × Output × List String :=
  let s1 := updateQueues s trec ws
  let q2m := scanMaxTgc s1.tonesCnt2 none
  let q1m := scanMaxTgc s1.tonesCnt1 q2m.1
  let res := { res with tg1 := q1m.1, tg1_cnt := q1m.2, tg2 := q2m.1, tg2_cnt := q2m.2 }
  if q1m.2 ≥ mgc ∧ q2m.2 ≥ mgc ∧ q1m.1 ≠ q2m.1 then
    let sc := optStr q1m.1 ++ "-" ++ optStr q2m.1
    let res := { res with is_active := true, selcal := some sc }
    if s1.lastSelcall.length = 0 then
      ({ s1 with lastSelcall := [q1m.1, q2m.1] }, res, [mkMaxToneEvent ts freq_hz sc])
    else (s1, res, [])
  else
    let res := { res with is_active := false, selcal := none }
    if s1.lastSelcall.length > 0 then
      ({ s1 with tonesCnt1 := [], tonesCnt2 := [], lastSelcall := [] },
       { res with didResetCnt := true }, [])
    else (s1, res, [])

/-- `TonesMonitor.resetToneScores`: zero the Q1 and Q2 score lists and —
exactly as in the source, which assigns `tonesQ1MaxCnt` twice and never
`tonesQ2MaxCnt` — only the Q1 max-count list. -/
def resetToneScores (s : MonState) : MonState :=
  { s with tonesQ1Score := fun _ => 0
           tonesQ2Score := fun _ => 0
           tonesQ1MaxCnt := fun _ => 0 }

/-- `TonesMonitor.trackByScore`: the two `top2` scans (the Q2 scan excludes
the Q1 pair), the four-threshold test, the nested disjointness test with
rising-edge logging, and the falling-edge score reset.  When the threshold
test passes but the disjointness test fails, no result key is written, as
in the source (the inner `if` has no `else`). -/
def trackByScore (freq_hz : Int) (ts : String) (s : MonState) (ms : ℚ) (res : Output) :
    MonState × Output × List String :=
  let t1 := top2 s.tonesQ1Score []
  let t2 := top2 s.tonesQ2Score [t1.1.1, t1.1.2]
  let q1a := t1.1.1
  let q1b := t1.1.2
  let v1a := t1.2.1
  let v1b := t1.2.2
  let q2a := t2.1.1
  let q2b := t2.1.2
  let v2a := t2.2.1
  let v2b := t2.2.2
  if v1a ≥ ms ∧ v1b ≥ ms ∧ v2a ≥ ms ∧ v2b ≥ ms then
    if q1a ≠ q2a ∧ q1a ≠ q2b ∧ q1b ≠ q2a ∧ q1b ≠ q2b then
      let tgc1 := letter q1a ++ letter q1b
      let tgc2 := letter q2a ++ letter q2b
      let res := { res with is_active_BS := some true, selcal_BS := some (tgc1 ++ "-" ++ tgc2) }
      if s.lastSelcall_BS.length = 0 then
        ({ s with lastSelcall_BS := [tgc1, tgc2] }, res,
         [mkByScoreEvent ts freq_hz (tgc1 ++ "-" ++ tgc2)
            (statsStr q1a q1b q2a q2b v1a v1b v2a v2b)])
      else (s, res, [])
    else (s, res, [])
  else
    let res := { res with is_active_BS := some false, selcal_BS := none }
    if s.lastSelcall_BS.length > 0 then
      (resetToneScores { s with lastSelcall_BS := [] },
       { res with didResetScores := true }, [])
    else (s, res, [])

/-- `TonesMonitor.trackTones`: initialize the result dictionary, run
`trackByMaxTones` and then `trackByScore`.  The timestamp string `ts` and
the emitted event-log lines make the I/O of the call explicit. -/
def trackTones (freq_hz : Int) (ts : String) (s : MonState) (trec : TonesRecord)
    (ws : ℕ) (mgc : Int) (ms : ℚ) : MonState × Output × List String :=
  let res0 : Output := { current_tgc := trec.gtc }
  let r1 := trackByMaxTones freq_hz ts s trec ws mgc res0
  let r2 := trackByScore freq_hz ts r1.1 ms r1.2.1
  (r2.1, r2.2.1, r1.2.2 ++ r2.2.2)

/-- Run `trackTones` over a list of (record, timestamp) inputs, collecting
the per-call outputs and all event-log lines in order. -/
def runTrack (freq_hz : Int) (ws : ℕ) (mgc : Int) (ms : ℚ) :
    MonState → List (TonesRecord × String) → MonState × List Output × List String
  | s, [] => (s, [], [])
  | s, (r, ts) :: rest =>
    let step := trackTones freq_hz ts s r ws mgc ms
    let rec_rest := runTrack freq_hz ws mgc ms step.1 rest
    (rec_rest.1, step.2.1 :: rec_rest.2.1, step.2.2 ++ rec_rest.2.2)

/-
The rate-profile table of src/selcald/receiver.py.  The Python getters
print a message and `sys.exit(-1)` on an unsupported rate; this failure
is modelled as `none`.
-/

/-- One row of the `SAMPLE_RATES` table of receiver.py (the key misspells
"decimate" as in the source). -/
structure RateProfile where
  descimate : Int
  sig_rate : Int
  frame_rate : Int
  frame_len : Int
deriving DecidableEq

/-- The `SAMPLE_RATES` table of receiver.py. -/
def SAMPLE_RATES : List (Int × RateProfile) :=
  [(11025, ⟨1, 11025, 9, 1225⟩),
   (22050, ⟨2, 11025, 9, 1225⟩),
   (44100, ⟨4, 11025, 9, 1225⟩),
   (48000, ⟨4, 12000, 10, 1200⟩)]

/-- The common guard of the four getters: look the input rate up in
`SAMPLE_RATES`; an unsupported rate is the `UnsupportedRate` failure
(`sys.exit(-1)` in the source), modelled as `none`. -/
def lookupRate (r : Int) : Option RateProfile :=
  (SAMPLE_RATES.find? (fun e => e.1 == r)).map (fun e => e.2)

/-- `getDecimate` of receiver.py. -/
def getDecimate (r : Int) : Option Int := (lookupRate r).map RateProfile.descimate

/-- `getNewSigRate` of receiver.py. -/
def getNewSigRate (r : Int) : Option Int := (lookupRate r).map RateProfile.sig_rate

/-- `getFrameLength` of receiver.py. -/
def getFrameLength (r : Int) : Option Int := (lookupRate r).map RateProfile.frame_len

/-- `getFrameRate` of receiver.py. -/
def getFrameRate (r : Int) : Option Int := (lookupRate r).map RateProfile.frame_rate

/-- C10: the rate-profile lookup fails exactly on rates outside
{11025, 22050, 44100, 48000}, and returns the four enumerated profiles
(decimate 1,2,4,4; working rate 11025,11025,11025,12000; frame rate
9,9,9,10; frame length 1225,1225,1225,1200) on the supported rates.
The lookup itself is a pure function; failure (`UnsupportedRate`,
non-zero exit) is the `none` result. -/
theorem c10_rate_profile_lookup :
    (∀ r : Int, lookupRate r = none ↔
      ¬(r = 11025 ∨ r = 22050 ∨ r = 44100 ∨ r = 48000)) ∧
    getDecimate 11025 = some 1 ∧ getNewSigRate 11025 = some 11025 ∧
      getFrameRate 11025 = some 9 ∧ getFrameLength 11025 = some 1225 ∧
    getDecimate 22050 = some 2 ∧ getNewSigRate 22050 = some 11025 ∧
      getFrameRate 22050 = some 9 ∧ getFrameLength 22050 = some 1225 ∧
    getDecimate 44100 = some 4 ∧ getNewSigRate 44100 = some 11025 ∧
      getFrameRate 44100 = some 9 ∧ getFrameLength 44100 = some 1225 ∧
    getDecimate 48000 = some 4 ∧ getNewSigRate 48000 = some 12000 ∧
      getFrameRate 48000 = some 10 ∧ getFrameLength 48000 = some 1200 := by
  refine ⟨fun r => ?_, ?_⟩
  · constructor
    · intro h hmem
      rcases hmem with h1 | h1 | h1 | h1 <;> subst h1 <;>
        simp [lookupRate, SAMPLE_RATES, List.find?] at h
    · intro h
      have h1 : ((11025 : Int) == r) = false := by
        simp; exact fun hc => h (Or.inl hc.symm)
      have h2 : ((22050 : Int) == r) = false := by
        simp; exact fun hc => h (Or.inr (Or.inl hc.symm))
      have h3 : ((44100 : Int) == r) = false := by
        simp; exact fun hc => h (Or.inr (Or.inr (Or.inl hc.symm)))
      have h4 : ((48000 : Int) == r) = false := by
        simp; exact fun hc => h (Or.inr (Or.inr (Or.inr hc.symm)))
      simp [lookupRate, SAMPLE_RATES, List.find?, h1, h2, h3, h4]
  · decide

/-
Concrete runs used by the counterexamples and bug demonstrations.
-/

/-- A fixed timestamp string standing in for `getTimestamp()`. -/
def tsA : String := "2026/01/01-00:00:00"

/-- Sum of the counts of a TGC-to-count mapping (`Σ cnt` in the spec). -/
def sumVals (m : CntMap) : Int := (m.map (fun e => e.2)).sum

/-- Three track calls with window size 1, min_group_cnt 1: rAB, rCD makes
method 1 active, then rCD makes it inactive again, so the falling edge
clears both counter maps while the queues still hold records. -/
def c1run : MonState × List Output × List String :=
  runTrack 8864 1 1 100 freshState [(rAB, tsA), (rCD, tsA), (rCD, tsA)]

/-- C1 counterexample: after the third call of `c1run` the counters have
been cleared by the method-1 falling edge but Q2 still holds one record,
so `Σ cnt2 = 0 ≠ 1 = |Q2|` (the queue bound itself still holds). -/
theorem c1_counterexample :
    sumVals c1run.1.tonesCnt2 ≠ (c1run.1.tonesQ2.length : Int) ∧
    sumVals c1run.1.tonesCnt2 = 0 ∧ c1run.1.tonesQ2.length = 1 ∧
    sumVals c1run.1.tonesCnt1 = 0 ∧ c1run.1.tonesQ1.length = 1 := by decide

/-- Six track calls with window size 2, min_score 1: method 2 becomes
active (rEF in Q1, rAB in Q2), then inactive at call 5, whose falling edge
zeroes the score lists while the queues still hold pre-reset records. -/
def c2run : MonState × List Output × List String :=
  runTrack 8864 2 100 1 freshState
    [(rEF, tsA), (rEF, tsA), (rAB, tsA), (rABx, tsA), (rZero, tsA), (rZero, tsA)]

/-- C2 counterexample: at call 6 of `c2run` the record rABx (score 0.4 at
tone 4) has rolled into Q1 and the pre-reset record rEF (score 1.0 at
tone 4) is evicted from it; the eviction guard `if score > 0` does not
clamp, so `scoreQ1[4] = 0.4 - 1.0 = -0.6 < 0` after the call. -/
theorem c2_counterexample :
    c2run.1.tonesQ1Score (4 : Fin 16) < 0 ∧
    c2run.1.tonesQ1Score (4 : Fin 16) = -3/5 := by decide

/-- The first five calls of the `c2run` scenario: call 5 is the method-2
falling edge on a state whose Q2 max-count list is far from zero. -/
def c3run : MonState × List Output × List String :=
  runTrack 8864 2 100 1 freshState
    [(rEF, tsA), (rEF, tsA), (rAB, tsA), (rABx, tsA), (rZero, tsA)]

/-- C3: at the method-2 falling edge (call 5 of `c3run`) the output is
inactive with a null code and `lastSelcal_S` is cleared, and the code
zeroes `scoreQ1`, `scoreQ2` and `maxCntQ1` — but, because
`resetToneScores` assigns `tonesQ1MaxCnt` twice and never
`tonesQ2MaxCnt`, the fourth running array `maxCntQ2` keeps its old
contents (entry 4 still counts 4), contradicting the claim that all four
arrays are zeroed. -/
theorem c3_falling_edge_reset_bug :
    c3run.2.1.length = 5 ∧
    (∀ o ∈ c3run.2.1.drop 4,
      o.is_active_BS = some false ∧ o.selcal_BS = none ∧ o.didResetScores = true) ∧
    (∀ t, c3run.1.tonesQ1Score t = 0) ∧
    (∀ t, c3run.1.tonesQ2Score t = 0) ∧
    (∀ t, c3run.1.tonesQ1MaxCnt t = 0) ∧
    c3run.1.lastSelcall_BS = [] ∧
    c3run.1.tonesQ2MaxCnt (4 : Fin 16) = 4 := by decide

/-- Interleaved calls of two monitor instances.  In the source the queues,
counters and score lists are class attributes, mutated in place, so two
instances operate on one shared state: the run below is instance 1
(freq 8864) tracking rAB, instance 2 (freq 8865) tracking rCD, instance 1
tracking rCD, threaded through the single shared state. -/
def c8sharedStep1 : MonState × Output × List String :=
  trackTones 8864 tsA freshState rAB 1 100 100

/-- Second interleaved call: instance 2's record lands in the shared state. -/
def c8sharedStep2 : MonState × Output × List String :=
  trackTones 8865 tsA c8sharedStep1.1 rCD 1 100 100

/-- Third interleaved call: instance 1's second record. -/
def c8sharedStep3 : MonState × Output × List String :=
  trackTones 8864 tsA c8sharedStep2.1 rCD 1 100 100

/-- Instance 1's second call when instance 2 never ran: same instance-1
inputs (rAB then rCD from a fresh state), no interleaving. -/
def c8isoStep2 : MonState × Output × List String :=
  trackTones 8864 tsA c8sharedStep1.1 rCD 1 100 100

/-- C8: the outputs of instance 1's second `track` call differ depending
on whether instance 2 was fed a record in between — isolated, Q1's top
group is AB with count 1; interleaved, instance 2's record has pushed rAB
out of the window and the top group is gone — so a decoder's outputs do
not depend only on its own construction arguments and input records. -/
theorem c8_shared_state_bug :
    c8isoStep2.2.1.tg1 = some "AB" ∧ c8isoStep2.2.1.tg1_cnt = 1 ∧
    c8sharedStep3.2.1.tg1 = none ∧ c8sharedStep3.2.1.tg1_cnt = 0 ∧
    c8isoStep2.2.1.current_tgc = c8sharedStep3.2.1.current_tgc := by decide

/-
C9: the format of the event-log lines.
-/

/-- The exact event-line format asserted by the specification:
`<timestamp> <freq> kHz <code> ~ <tag>` followed by a newline and
nothing else. -/
def exactEventLine (line tag : String) : Prop :=
  ∃ ts f sc, line = ts ++ " " ++ f ++ " kHz " ++ sc ++ (" ~ " ++ tag ++ "\n")

/-- Helper: a suffix of a list is still a suffix after prepending on the left. -/
theorem suffix_append_left {α : Type} {s t : List α} (l : List α) (h : s <:+ t) :
    s <:+ l ++ t := by
  obtain ⟨u, rfl⟩ := h
  exact ⟨l ++ u, List.append_assoc l u s⟩

/-- A two-call run whose second call raises a method-2 (by-score) event. -/
def c9run : MonState × List Output × List String :=
  runTrack 8864 1 100 1 freshState [(rAB, tsA), (rCD, tsA)]

/-- The single line `c9run` appends to the event log. -/
def c9line : String :=
  "2026/01/01-00:00:00 8.9 kHz AB-CD ~ SELCAL_BYSCORE - STATS: [ [ Score: (Q1: 0:1.0, 1:1.0)  Q2: (2:1.0, 3:1.0) ] ]\n"

/-- C9 counterexample: the by-score event line actually appended by the
code carries a ` - STATS: [...]` segment after the tag, so it does not
have the exact claimed form for either tag. -/
theorem c9_counterexample :
    c9run.2.2 = [c9line] ∧
    ¬ exactEventLine c9line "SELCAL_BYMAXTONE" ∧
    ¬ exactEventLine c9line "SELCAL_BYSCORE" := by
  refine ⟨by decide, ?_, ?_⟩
  · rintro ⟨ts, f, sc, h⟩
    have hd := congrArg String.data h
    simp only [String.data_append, List.append_assoc] at hd
    have hsuf : (" ~ " ++ "SELCAL_BYMAXTONE" ++ "\n" : String).data <:+ c9line.data := by
      rw [hd]
      exact suffix_append_left _ (suffix_append_left _ (suffix_append_left _
        (suffix_append_left _ (List.suffix_append _ _))))
    have hnot : ¬ ((" ~ " ++ "SELCAL_BYMAXTONE" ++ "\n" : String).data <:+ c9line.data) := by
      decide
    exact hnot hsuf
  · rintro ⟨ts, f, sc, h⟩
    have hd := congrArg String.data h
    simp only [String.data_append, List.append_assoc] at hd
    have hsuf : (" ~ " ++ "SELCAL_BYSCORE" ++ "\n" : String).data <:+ c9line.data := by
      rw [hd]
      exact suffix_append_left _ (suffix_append_left _ (suffix_append_left _
        (suffix_append_left _ (List.suffix_append _ _))))
    have hnot : ¬ ((" ~ " ++ "SELCAL_BYSCORE" ++ "\n" : String).data <:+ c9line.data) := by
      decide
    exact hnot hsuf

/-- Case analysis of the events emitted by `trackByMaxTones`: nothing, or
one by-max-tone line carrying the call's timestamp, frequency and exactly
the selcal code reported in the call's result record. -/
theorem trackByMaxTones_events_shape (freq : Int) (ts : String) (s : MonState)
    (trec : TonesRecord) (ws : ℕ) (mgc : Int) (res : Output) :
    (trackByMaxTones freq ts s trec ws mgc res).2.2 = [] ∨
    ∃ sc, (trackByMaxTones freq ts s trec ws mgc res).2.1.selcal = some sc ∧
      (trackByMaxTones freq ts s trec ws mgc res).2.2 = [mkMaxToneEvent ts freq sc] := by
  simp only [trackByMaxTones]
  split_ifs <;> first | exact Or.inl rfl | exact Or.inr ⟨_, rfl, rfl⟩

/-- Case analysis of the events emitted by `trackByScore`: nothing, or one
by-score line carrying the call's timestamp, frequency, exactly the
selcal_BS code reported in the call's result record, and a stats segment. -/
theorem trackByScore_events_shape (freq : Int) (ts : String) (s : MonState)
    (ms : ℚ) (res : Output) :
    (trackByScore freq ts s ms res).2.2 = [] ∨
    ∃ sc st, (trackByScore freq ts s ms res).2.1.selcal_BS = some sc ∧
      (trackByScore freq ts s ms res).2.2 = [mkByScoreEvent ts freq sc st] := by
  simp only [trackByScore]
  split_ifs <;> first | exact Or.inl rfl | exact Or.inr ⟨_, _, rfl, rfl⟩

/-- `trackByScore` passes all method-1 output fields through unchanged. -/
theorem trackByScore_passthrough (freq_hz : Int) (ts : String) (s : MonState)
    (ms : ℚ) (res : Output) :
    (trackByScore freq_hz ts s ms res).2.1.is_active = res.is_active ∧
    (trackByScore freq_hz ts s ms res).2.1.selcal = res.selcal ∧
    (trackByScore freq_hz ts s ms res).2.1.tg1 = res.tg1 ∧
    (trackByScore freq_hz ts s ms res).2.1.tg1_cnt = res.tg1_cnt ∧
    (trackByScore freq_hz ts s ms res).2.1.tg2 = res.tg2 ∧
    (trackByScore freq_hz ts s ms res).2.1.tg2_cnt = res.tg2_cnt := by
  simp only [trackByScore]
  split_ifs <;> exact ⟨rfl, rfl, rfl, rfl, rfl, rfl⟩

/-- Every line of one `trackTones` call is the by-max-tone line built from
the call's timestamp, frequency and reported selcal code, or the by-score
line built from the call's timestamp, frequency, reported selcal_BS code
and a stats segment. -/
theorem trackTones_event_lines (freq : Int) (ts : String) (s : MonState)
    (trec : TonesRecord) (ws : ℕ) (mgc : Int) (ms : ℚ) :
    ∀ line ∈ (trackTones freq ts s trec ws mgc ms).2.2,
      (∃ sc, (trackTones freq ts s trec ws mgc ms).2.1.selcal = some sc ∧
        line = mkMaxToneEvent ts freq sc) ∨
      (∃ sc st, (trackTones freq ts s trec ws mgc ms).2.1.selcal_BS = some sc ∧
        line = mkByScoreEvent ts freq sc st) := by
  intro line hl
  simp only [trackTones] at hl ⊢
  rcases List.mem_append.1 hl with h1 | h2
  · rcases trackByMaxTones_events_shape freq ts s trec ws mgc
        { current_tgc := trec.gtc } with he | ⟨sc, hsel, he⟩
    · rw [he] at h1; simp at h1
    · rw [he] at h1
      simp only [List.mem_singleton] at h1
      refine Or.inl ⟨sc, ?_, h1⟩
      have hp := trackByScore_passthrough freq ts
        (trackByMaxTones freq ts s trec ws mgc { current_tgc := trec.gtc }).1 ms
        (trackByMaxTones freq ts s trec ws mgc { current_tgc := trec.gtc }).2.1
      rw [hp.2.1, hsel]
  · rcases trackByScore_events_shape freq ts
        (trackByMaxTones freq ts s trec ws mgc { current_tgc := trec.gtc }).1 ms
        (trackByMaxTones freq ts s trec ws mgc { current_tgc := trec.gtc }).2.1
        with he | ⟨sc, st, hsel, he⟩
    · rw [he] at h2; simp at h2
    · rw [he] at h2
      simp only [List.mem_singleton] at h2
      exact Or.inr ⟨sc, st, hsel, h2⟩

/-- Every event line of a run is built from the timestamp of one of the
run's inputs. -/
theorem runTrack_events_shape (freq : Int) (ws : ℕ) (mgc : Int) (ms : ℚ) :
    ∀ (inputs : List (TonesRecord × String)) (s : MonState),
      ∀ line ∈ (runTrack freq ws mgc ms s inputs).2.2,
        ∃ p ∈ inputs,
          (∃ sc, line = mkMaxToneEvent p.2 freq sc) ∨
          (∃ sc st, line = mkByScoreEvent p.2 freq sc st) := by
  intro inputs
  induction inputs with
  | nil => intro s line hl; simp [runTrack] at hl
  | cons p rest ih =>
    obtain ⟨r, ts⟩ := p
    intro s line hl
    simp only [runTrack] at hl
    rcases List.mem_append.1 hl with h | h
    · rcases trackTones_event_lines freq ts s r ws mgc ms line h with
        ⟨sc, _, he⟩ | ⟨sc, st, _, he⟩
      · exact ⟨(r, ts), List.mem_cons_self _ _, Or.inl ⟨sc, he⟩⟩
      · exact ⟨(r, ts), List.mem_cons_self _ _, Or.inr ⟨sc, st, he⟩⟩
    · obtain ⟨q, hq, hf⟩ := ih _ line h
      exact ⟨q, List.mem_cons_of_mem _ hq, hf⟩

/-- C9 (amended): every line a track call appends to the event log begins
with the caller-supplied timestamp string, carries the frequency in kHz
with one fractional digit, and is newline-terminated; a method-1 line is
exactly `<ts> FF.F kHz <code> ~ SELCAL_BYMAXTONE` plus newline, where
`<code>` is the selcal code the call reports, while a method-2 line is
`<ts> FF.F kHz <code> ~ SELCAL_BYSCORE - STATS: [<stats>]` plus newline,
where `<code>` is the reported selcal_BS code — by-score lines carry an
extra STATS segment after the tag, so they never end at the tag.  Across a
whole run from a fresh state, every logged line is built from the
timestamp of one of the run's inputs. -/
theorem c9_event_line_shapes (freq : Int) (ts : String) (s : MonState)
    (trec : TonesRecord) (ws : ℕ) (mgc : Int) (ms : ℚ)
    (inputs : List (TonesRecord × String)) :
    (∀ line ∈ (trackTones freq ts s trec ws mgc ms).2.2,
      (∃ sc, (trackTones freq ts s trec ws mgc ms).2.1.selcal = some sc ∧
        line = ts ++ " " ++ fmtKHz freq ++ " kHz " ++ sc ++ " ~ SELCAL_BYMAXTONE\n") ∨
      (∃ sc st, (trackTones freq ts s trec ws mgc ms).2.1.selcal_BS = some sc ∧
        line = ts ++ " " ++ fmtKHz freq ++ " kHz " ++ sc ++
          " ~ SELCAL_BYSCORE - STATS: [" ++ st ++ "]\n")) ∧
    (∀ line ∈ (runTrack freq ws mgc ms freshState inputs).2.2,
      ∃ p ∈ inputs,
        (∃ sc, line = p.2 ++ " " ++ fmtKHz freq ++ " kHz " ++ sc ++ " ~ SELCAL_BYMAXTONE\n") ∨
        (∃ sc st, line = p.2 ++ " " ++ fmtKHz freq ++ " kHz " ++ sc ++
          " ~ SELCAL_BYSCORE - STATS: [" ++ st ++ "]\n")) := by
  constructor
  · intro line hl
    rcases trackTones_event_lines freq ts s trec ws mgc ms line hl with
      ⟨sc, hsel, he⟩ | ⟨sc, st, hsel, he⟩
    · exact Or.inl ⟨sc, hsel, he⟩
    · exact Or.inr ⟨sc, st, hsel, he⟩
  · intro line hl
    obtain ⟨p, hp, hf⟩ := runTrack_events_shape freq ws mgc ms inputs freshState line hl
    rcases hf with ⟨sc, he⟩ | ⟨sc, st, he⟩
    · exact ⟨p, hp, Or.inl ⟨sc, he⟩⟩
    · exact ⟨p, hp, Or.inr ⟨sc, st, he⟩⟩

/-
C1: the counter-sum invariant.
-/

/-- A key is present in a counter map. -/
def hasKey (m : CntMap) (k : String) : Prop := ∃ e ∈ m, e.1 = k

theorem sumVals_incCounter (m : CntMap) (g : String) :
    sumVals (incCounter m g) = sumVals m + 1 := by
  induction m with
  | nil => simp [incCounter, sumVals]
  | cons e rest ih =>
    by_cases h : e.1 = g
    · simp only [incCounter, if_pos h, sumVals, List.map_cons, List.sum_cons]
      omega
    · simp only [incCounter, if_neg h, sumVals, List.map_cons, List.sum_cons] at ih ⊢
      omega

theorem sumVals_decCounter (m : CntMap) (g : String) (h : hasKey m g) :
    sumVals (decCounter m g) = sumVals m - 1 := by
  induction m with
  | nil => obtain ⟨e, he, _⟩ := h; simp at he
  | cons e rest ih =>
    by_cases hh : e.1 = g
    · simp only [decCounter, if_pos hh, sumVals, List.map_cons, List.sum_cons]
      omega
    · have hrest : hasKey rest g := by
        obtain ⟨e', he', hk⟩ := h
        rcases List.mem_cons.1 he' with rfl | hmem
        · exact absurd hk hh
        · exact ⟨e', hmem, hk⟩
      have := ih hrest
      simp only [decCounter, if_neg hh, sumVals, List.map_cons, List.sum_cons] at this ⊢
      omega

theorem hasKey_incCounter_self (m : CntMap) (g : String) :
    hasKey (incCounter m g) g := by
  induction m with
  | nil => exact ⟨(g, 1), by simp [incCounter], rfl⟩
  | cons e rest ih =>
    by_cases h : e.1 = g
    · exact ⟨(e.1, e.2 + 1), by simp [incCounter, h], h⟩
    · obtain ⟨e', he', hk⟩ := ih
      exact ⟨e', by simp only [incCounter, if_neg h]; exact List.mem_cons_of_mem _ he', hk⟩

theorem hasKey_incCounter_mono (m : CntMap) (g k : String) (h : hasKey m k) :
    hasKey (incCounter m g) k := by
  induction m with
  | nil => obtain ⟨e, he, _⟩ := h; simp at he
  | cons e rest ih =>
    obtain ⟨e', he', hk⟩ := h
    by_cases hh : e.1 = g
    · rcases List.mem_cons.1 he' with rfl | hmem
      · exact ⟨(e'.1, e'.2 + 1), by simp [incCounter, hh], hk⟩
      · exact ⟨e', by simp only [incCounter, if_pos hh]; exact List.mem_cons_of_mem _ hmem, hk⟩
    · rcases List.mem_cons.1 he' with rfl | hmem
      · exact ⟨e', by simp only [incCounter, if_neg hh]; exact List.mem_cons_self _ _, hk⟩
      · obtain ⟨e2, he2, hk2⟩ := ih ⟨e', hmem, hk⟩
        exact ⟨e2, by simp only [incCounter, if_neg hh]; exact List.mem_cons_of_mem _ he2, hk2⟩

theorem hasKey_decCounter_mono (m : CntMap) (g k : String) (h : hasKey m k) :
    hasKey (decCounter m g) k := by
  induction m with
  | nil => obtain ⟨e, he, _⟩ := h; simp at he
  | cons e rest ih =>
    obtain ⟨e', he', hk⟩ := h
    by_cases hh : e.1 = g
    · rcases List.mem_cons.1 he' with rfl | hmem
      · exact ⟨(e'.1, e'.2 - 1), by simp [decCounter, hh], hk⟩
      · exact ⟨e', by simp only [decCounter, if_pos hh]; exact List.mem_cons_of_mem _ hmem, hk⟩
    · rcases List.mem_cons.1 he' with rfl | hmem
      · exact ⟨e', by simp only [decCounter, if_neg hh]; exact List.mem_cons_self _ _, hk⟩
      · obtain ⟨e2, he2, hk2⟩ := ih ⟨e', hmem, hk⟩
        exact ⟨e2, by simp only [decCounter, if_neg hh]; exact List.mem_cons_of_mem _ he2, hk2⟩

/-- The counter maps account exactly for the queue contents: the counts sum
to the queue sizes and every queued record's TGC has a key. -/
def CntOk (s : MonState) : Prop :=
  sumVals s.tonesCnt1 = (s.tonesQ1.length : Int) ∧
  sumVals s.tonesCnt2 = (s.tonesQ2.length : Int) ∧
  (∀ r ∈ s.tonesQ1, hasKey s.tonesCnt1 r.gtc) ∧
  (∀ r ∈ s.tonesQ2, hasKey s.tonesCnt2 r.gtc)

theorem pushQ2_cntOk (s : MonState) (trec : TonesRecord) (h : CntOk s) :
    CntOk (pushQ2 s trec) := by
  obtain ⟨h1, h2, h3, h4⟩ := h
  refine ⟨by simpa [pushQ2] using h1, ?_, by simpa [pushQ2] using h3, ?_⟩
  · simp only [pushQ2, sumVals_incCounter, h2, List.length_append, List.length_singleton]
    push_cast
    ring
  · intro r hr
    simp only [pushQ2] at hr ⊢
    rcases List.mem_append.1 hr with hm | hm
    · exact hasKey_incCounter_mono _ _ _ (h4 r hm)
    · rcases List.mem_singleton.1 hm with rfl
      exact hasKey_incCounter_self _ _

theorem popQ2ToQ1_cntOk (s : MonState) (h : CntOk s) : CntOk (popQ2ToQ1 s) := by
  obtain ⟨h1, h2, h3, h4⟩ := h
  rcases hQ : s.tonesQ2 with _ | ⟨old2, rest⟩
  · have hid : popQ2ToQ1 s = s := by simp [popQ2ToQ1, hQ]
    rw [hid]
    exact ⟨h1, h2, h3, h4⟩
  · have hkey : hasKey s.tonesCnt2 old2.gtc :=
      h4 old2 (by rw [hQ]; exact List.mem_cons_self _ _)
    refine ⟨?_, ?_, ?_, ?_⟩ <;> simp only [popQ2ToQ1, hQ]
    · simp only [sumVals_incCounter, h1, List.length_append, List.length_singleton]
      push_cast
      ring
    · rw [sumVals_decCounter _ _ hkey, h2, hQ]
      simp
    · intro r hr
      rcases List.mem_append.1 hr with hm | hm
      · exact hasKey_incCounter_mono _ _ _ (h3 r hm)
      · rcases List.mem_singleton.1 hm with rfl
        exact hasKey_incCounter_self _ _
    · intro r hr
      exact hasKey_decCounter_mono _ _ _ (h4 r (by rw [hQ]; exact List.mem_cons_of_mem _ hr))

theorem popQ1_cntOk (s : MonState) (h : CntOk s) : CntOk (popQ1 s) := by
  obtain ⟨h1, h2, h3, h4⟩ := h
  rcases hQ : s.tonesQ1 with _ | ⟨old1, rest⟩
  · have hid : popQ1 s = s := by simp [popQ1, hQ]
    rw [hid]
    exact ⟨h1, h2, h3, h4⟩
  · have hkey : hasKey s.tonesCnt1 old1.gtc :=
      h3 old1 (by rw [hQ]; exact List.mem_cons_self _ _)
    refine ⟨?_, ?_, ?_, ?_⟩ <;> simp only [popQ1, hQ]
    · rw [sumVals_decCounter _ _ hkey, h1, hQ]
      simp
    · exact h2
    · intro r hr
      exact hasKey_decCounter_mono _ _ _ (h3 r (by rw [hQ]; exact List.mem_cons_of_mem _ hr))
    · exact h4

theorem updateQueues_cntOk (s : MonState) (trec : TonesRecord) (ws : ℕ) (h : CntOk s) :
    CntOk (updateQueues s trec ws) := by
  have h1 := pushQ2_cntOk s trec h
  simp only [updateQueues]
  split
  · have h2 := popQ2ToQ1_cntOk _ h1
    split
    · exact popQ1_cntOk _ h2
    · exact h2
  · exact h1

theorem pushQ2_q2_length (s : MonState) (trec : TonesRecord) :
    (pushQ2 s trec).tonesQ2.length = s.tonesQ2.length + 1 := by
  simp [pushQ2]

theorem pushQ2_q1 (s : MonState) (trec : TonesRecord) :
    (pushQ2 s trec).tonesQ1 = s.tonesQ1 := by
  simp [pushQ2]

theorem popQ2ToQ1_q2_length (s : MonState) :
    (popQ2ToQ1 s).tonesQ2.length = s.tonesQ2.length - 1 := by
  rcases hQ : s.tonesQ2 with _ | ⟨old2, rest⟩ <;> simp [popQ2ToQ1, hQ]

theorem popQ2ToQ1_q1_length_le (s : MonState) :
    (popQ2ToQ1 s).tonesQ1.length ≤ s.tonesQ1.length + 1 := by
  rcases hQ : s.tonesQ2 with _ | ⟨old2, rest⟩ <;> simp [popQ2ToQ1, hQ]

theorem popQ1_q1_length (s : MonState) :
    (popQ1 s).tonesQ1.length = s.tonesQ1.length - 1 := by
  rcases hQ : s.tonesQ1 with _ | ⟨old1, rest⟩ <;> simp [popQ1, hQ]

theorem popQ1_q2 (s : MonState) : (popQ1 s).tonesQ2 = s.tonesQ2 := by
  rcases hQ : s.tonesQ1 with _ | ⟨old1, rest⟩ <;> simp [popQ1, hQ]

theorem updateQueues_q2_len (s : MonState) (trec : TonesRecord) (ws : ℕ)
    (h : s.tonesQ2.length ≤ ws) :
    (updateQueues s trec ws).tonesQ2.length ≤ ws := by
  simp only [updateQueues]
  split
  · split
    · rw [popQ1_q2, popQ2ToQ1_q2_length, pushQ2_q2_length]
      omega
    · rw [popQ2ToQ1_q2_length, pushQ2_q2_length]
      omega
  · next hc =>
    omega

theorem updateQueues_q1_len (s : MonState) (trec : TonesRecord) (ws : ℕ)
    (h : s.tonesQ1.length ≤ ws) :
    (updateQueues s trec ws).tonesQ1.length ≤ ws := by
  simp only [updateQueues]
  split
  · have hle := popQ2ToQ1_q1_length_le (pushQ2 s trec)
    rw [pushQ2_q1] at hle
    split
    · next hc =>
      rw [popQ1_q1_length]
      omega
    · next hc =>
      omega
  · rw [pushQ2_q1]
    exact h

/-- The decision part of `trackByMaxTones` never touches the queues or the
score lists: all its branches only update counters and `lastSelcall`. -/
theorem trackByMaxTones_fields (freq_hz : Int) (ts : String) (s : MonState)
    (trec : TonesRecord) (ws : ℕ) (mgc : Int) (res : Output) :
    (trackByMaxTones freq_hz ts s trec ws mgc res).1.tonesQ1 =
      (updateQueues s trec ws).tonesQ1 ∧
    (trackByMaxTones freq_hz ts s trec ws mgc res).1.tonesQ2 =
      (updateQueues s trec ws).tonesQ2 ∧
    (trackByMaxTones freq_hz ts s trec ws mgc res).1.tonesQ1Score =
      (updateQueues s trec ws).tonesQ1Score ∧
    (trackByMaxTones freq_hz ts s trec ws mgc res).1.tonesQ2Score =
      (updateQueues s trec ws).tonesQ2Score := by
  simp only [trackByMaxTones]
  split_ifs <;> exact ⟨rfl, rfl, rfl, rfl⟩

/-- `trackByMaxTones` passes the method-2 reset flag of the result record
through unchanged. -/
theorem trackByMaxTones_flag_scores (freq_hz : Int) (ts : String) (s : MonState)
    (trec : TonesRecord) (ws : ℕ) (mgc : Int) (res : Output) :
    (trackByMaxTones freq_hz ts s trec ws mgc res).2.1.didResetScores =
      res.didResetScores := by
  simp only [trackByMaxTones]
  split_ifs <;> rfl

/-- When the method-1 falling-edge reset did not run, the counter maps of
the post-call state are those produced by the queue maintenance. -/
theorem trackByMaxTones_cnt_of_not_reset (freq_hz : Int) (ts : String) (s : MonState)
    (trec : TonesRecord) (ws : ℕ) (mgc : Int) (res : Output)
    (hnr : (trackByMaxTones freq_hz ts s trec ws mgc res).2.1.didResetCnt = false) :
    (trackByMaxTones freq_hz ts s trec ws mgc res).1.tonesCnt1 =
      (updateQueues s trec ws).tonesCnt1 ∧
    (trackByMaxTones freq_hz ts s trec ws mgc res).1.tonesCnt2 =
      (updateQueues s trec ws).tonesCnt2 := by
  simp only [trackByMaxTones] at hnr ⊢
  split_ifs at hnr ⊢ <;> exact ⟨rfl, rfl⟩

/-- `trackByScore` never touches the queues or the counter maps. -/
theorem trackByScore_cnt_fields (freq_hz : Int) (ts : String) (s : MonState)
    (ms : ℚ) (res : Output) :
    (trackByScore freq_hz ts s ms res).1.tonesCnt1 = s.tonesCnt1 ∧
    (trackByScore freq_hz ts s ms res).1.tonesCnt2 = s.tonesCnt2 ∧
    (trackByScore freq_hz ts s ms res).1.tonesQ1 = s.tonesQ1 ∧
    (trackByScore freq_hz ts s ms res).1.tonesQ2 = s.tonesQ2 := by
  simp only [trackByScore, resetToneScores]
  split_ifs <;> exact ⟨rfl, rfl, rfl, rfl⟩

/-- `trackByScore` passes the method-1 reset flag through unchanged. -/
theorem trackByScore_flag_cnt (freq_hz : Int) (ts : String) (s : MonState)
    (ms : ℚ) (res : Output) :
    (trackByScore freq_hz ts s ms res).2.1.didResetCnt = res.didResetCnt := by
  simp only [trackByScore]
  split_ifs <;> rfl

/-- One `trackTones` call that did not take the method-1 falling-edge
branch preserves `CntOk` and the queue bounds. -/
theorem trackTones_cntOk (freq_hz : Int) (ts : String) (s : MonState)
    (trec : TonesRecord) (ws : ℕ) (mgc : Int) (ms : ℚ)
    (h : CntOk s) (hq1 : s.tonesQ1.length ≤ ws) (hq2 : s.tonesQ2.length ≤ ws)
    (hnr : (trackTones freq_hz ts s trec ws mgc ms).2.1.didResetCnt = false) :
    CntOk (trackTones freq_hz ts s trec ws mgc ms).1 ∧
    (trackTones freq_hz ts s trec ws mgc ms).1.tonesQ1.length ≤ ws ∧
    (trackTones freq_hz ts s trec ws mgc ms).1.tonesQ2.length ≤ ws := by
  have hmt : (trackByMaxTones freq_hz ts s trec ws mgc
      { current_tgc := trec.gtc }).2.1.didResetCnt = false := by
    have := trackByScore_flag_cnt freq_hz ts
      (trackByMaxTones freq_hz ts s trec ws mgc { current_tgc := trec.gtc }).1 ms
      (trackByMaxTones freq_hz ts s trec ws mgc { current_tgc := trec.gtc }).2.1
    simp only [trackTones] at hnr
    rw [this] at hnr
    exact hnr
  obtain ⟨hc1, hc2⟩ := trackByMaxTones_cnt_of_not_reset freq_hz ts s trec ws mgc
    { current_tgc := trec.gtc } hmt
  obtain ⟨hf1, hf2, _, _⟩ := trackByMaxTones_fields freq_hz ts s trec ws mgc
    { current_tgc := trec.gtc }
  obtain ⟨hb1, hb2, hb3, hb4⟩ := trackByScore_cnt_fields freq_hz ts
    (trackByMaxTones freq_hz ts s trec ws mgc { current_tgc := trec.gtc }).1 ms
    (trackByMaxTones freq_hz ts s trec ws mgc { current_tgc := trec.gtc }).2.1
  have hu := updateQueues_cntOk s trec ws h
  have hl1 := updateQueues_q1_len s trec ws hq1
  have hl2 := updateQueues_q2_len s trec ws hq2
  obtain ⟨u1, u2, u3, u4⟩ := hu
  simp only [trackTones]
  refine ⟨⟨?_, ?_, ?_, ?_⟩, ?_, ?_⟩
  · rw [hb1, hc1, hb3, hf1]; exact u1
  · rw [hb2, hc2, hb4, hf2]; exact u2
  · rw [hb1, hc1, hb3, hf1]; exact u3
  · rw [hb2, hc2, hb4, hf2]; exact u4
  · rw [hb3, hf1]; exact hl1
  · rw [hb4, hf2]; exact hl2

/-- `CntOk` and the queue bounds hold after every run in which no call took
the method-1 falling-edge counter reset. -/
theorem runTrack_cntOk (freq_hz : Int) (ws : ℕ) (mgc : Int) (ms : ℚ) :
    ∀ (inputs : List (TonesRecord × String)) (s : MonState),
      CntOk s → s.tonesQ1.length ≤ ws → s.tonesQ2.length ≤ ws →
      (∀ out ∈ (runTrack freq_hz ws mgc ms s inputs).2.1, out.didResetCnt = false) →
      CntOk (runTrack freq_hz ws mgc ms s inputs).1 ∧
      (runTrack freq_hz ws mgc ms s inputs).1.tonesQ1.length ≤ ws ∧
      (runTrack freq_hz ws mgc ms s inputs).1.tonesQ2.length ≤ ws := by
  intro inputs
  induction inputs with
  | nil =>
    intro s h hq1 hq2 _
    exact ⟨h, hq1, hq2⟩
  | cons p rest ih =>
    obtain ⟨r, ts⟩ := p
    intro s h hq1 hq2 hnr
    have hhead : (trackTones freq_hz ts s r ws mgc ms).2.1.didResetCnt = false := by
      apply hnr
      simp only [runTrack]
      exact List.mem_cons_self _ _
    have htail : ∀ out ∈ (runTrack freq_hz ws mgc ms
        (trackTones freq_hz ts s r ws mgc ms).1 rest).2.1, out.didResetCnt = false := by
      intro out hout
      apply hnr
      simp only [runTrack]
      exact List.mem_cons_of_mem _ hout
    obtain ⟨h', hq1', hq2'⟩ := trackTones_cntOk freq_hz ts s r ws mgc ms h hq1 hq2 hhead
    simpa only [runTrack] using ih _ h' hq1' hq2' htail

/-- The queue bounds after one `trackTones` call, unconditionally: every
branch of the two decision functions, including both falling-edge resets,
leaves the queues exactly as the queue maintenance produced them. -/
theorem trackTones_q_len (freq_hz : Int) (ts : String) (s : MonState)
    (trec : TonesRecord) (ws : ℕ) (mgc : Int) (ms : ℚ)
    (hq1 : s.tonesQ1.length ≤ ws) (hq2 : s.tonesQ2.length ≤ ws) :
    (trackTones freq_hz ts s trec ws mgc ms).1.tonesQ1.length ≤ ws ∧
    (trackTones freq_hz ts s trec ws mgc ms).1.tonesQ2.length ≤ ws := by
  obtain ⟨hf1, hf2, _, _⟩ := trackByMaxTones_fields freq_hz ts s trec ws mgc
    { current_tgc := trec.gtc }
  obtain ⟨_, _, hb3, hb4⟩ := trackByScore_cnt_fields freq_hz ts
    (trackByMaxTones freq_hz ts s trec ws mgc { current_tgc := trec.gtc }).1 ms
    (trackByMaxTones freq_hz ts s trec ws mgc { current_tgc := trec.gtc }).2.1
  have hl1 := updateQueues_q1_len s trec ws hq1
  have hl2 := updateQueues_q2_len s trec ws hq2
  simp only [trackTones]
  constructor
  · rw [hb3, hf1]; exact hl1
  · rw [hb4, hf2]; exact hl2

/-- The queue bounds hold after every run, with no side condition. -/
theorem runTrack_q_len (freq_hz : Int) (ws : ℕ) (mgc : Int) (ms : ℚ) :
    ∀ (inputs : List (TonesRecord × String)) (s : MonState),
      s.tonesQ1.length ≤ ws → s.tonesQ2.length ≤ ws →
      (runTrack freq_hz ws mgc ms s inputs).1.tonesQ1.length ≤ ws ∧
      (runTrack freq_hz ws mgc ms s inputs).1.tonesQ2.length ≤ ws := by
  intro inputs
  induction inputs with
  | nil =>
    intro s hq1 hq2
    exact ⟨hq1, hq2⟩
  | cons p rest ih =>
    obtain ⟨r, ts⟩ := p
    intro s hq1 hq2
    obtain ⟨hq1', hq2'⟩ := trackTones_q_len freq_hz ts s r ws mgc ms hq1 hq2
    simpa only [runTrack] using ih _ hq1' hq2'

/-- C1 (amended): for every run of track calls on a fresh DecoderState with
a fixed window size, each queue holds at most `window_size` records after
the run — unconditionally, because the method-1 falling edge clears only
the counter maps and never the queues; and as long as no call of the run
has taken that falling-edge branch, the counts in cnt1 sum to `|Q1|` and
the counts in cnt2 sum to `|Q2|`.  (The state after call k of a longer run
is the final state of the length-k prefix run, so this covers every
call.) -/
theorem c1_counter_sums_invariant (freq_hz : Int) (ws : ℕ) (mgc : Int) (ms : ℚ)
    (inputs : List (TonesRecord × String)) :
    ((runTrack freq_hz ws mgc ms freshState inputs).1.tonesQ1.length ≤ ws ∧
     (runTrack freq_hz ws mgc ms freshState inputs).1.tonesQ2.length ≤ ws) ∧
    ((∀ out ∈ (runTrack freq_hz ws mgc ms freshState inputs).2.1,
        out.didResetCnt = false) →
      sumVals (runTrack freq_hz ws mgc ms freshState inputs).1.tonesCnt1 =
        ((runTrack freq_hz ws mgc ms freshState inputs).1.tonesQ1.length : Int) ∧
      sumVals (runTrack freq_hz ws mgc ms freshState inputs).1.tonesCnt2 =
        ((runTrack freq_hz ws mgc ms freshState inputs).1.tonesQ2.length : Int)) := by
  constructor
  · exact runTrack_q_len freq_hz ws mgc ms inputs freshState
      (by simp [freshState]) (by simp [freshState])
  · intro hnr
    have h0 : CntOk freshState := by
      refine ⟨by simp [freshState, sumVals], by simp [freshState, sumVals], ?_, ?_⟩ <;>
        intro r hr <;> simp [freshState] at hr
    obtain ⟨⟨h1, h2, _, _⟩, _, _⟩ := runTrack_cntOk freq_hz ws mgc ms inputs freshState
      h0 (by simp [freshState]) (by simp [freshState]) hnr
    exact ⟨h1, h2⟩

/-
C2: nonnegativity of the running score lists.
-/

/-- Pointwise sum of the score vectors of the records in a queue. -/
def sumScores (Q : List TonesRecord) : Vec16 :=
  fun t => (Q.map (fun r => r.scores t)).sum

/-- The running score lists are exactly the pointwise sums over the queue
contents, and every queued record has nonnegative scores. -/
def ScoreOk (s : MonState) : Prop :=
  (∀ t, s.tonesQ1Score t = sumScores s.tonesQ1 t) ∧
  (∀ t, s.tonesQ2Score t = sumScores s.tonesQ2 t) ∧
  (∀ r ∈ s.tonesQ1, ∀ t, 0 ≤ r.scores t) ∧
  (∀ r ∈ s.tonesQ2, ∀ t, 0 ≤ r.scores t)

theorem sumScores_nonneg (Q : List TonesRecord) (h : ∀ r ∈ Q, ∀ t, 0 ≤ r.scores t)
    (t : Fin 16) : 0 ≤ sumScores Q t := by
  apply List.sum_nonneg
  intro x hx
  obtain ⟨r, hr, rfl⟩ := List.mem_map.1 hx
  exact h r hr t

theorem sumScores_append_single (Q : List TonesRecord) (r : TonesRecord) (t : Fin 16) :
    sumScores (Q ++ [r]) t = sumScores Q t + r.scores t := by
  simp [sumScores]

theorem sumScores_cons (r : TonesRecord) (Q : List TonesRecord) (t : Fin 16) :
    sumScores (r :: Q) t = r.scores t + sumScores Q t := by
  simp [sumScores]

theorem pushQ2_scoreOk (s : MonState) (trec : TonesRecord) (h : ScoreOk s)
    (hr : ∀ t, 0 ≤ trec.scores t) : ScoreOk (pushQ2 s trec) := by
  obtain ⟨h1, h2, h3, h4⟩ := h
  refine ⟨?_, ?_, ?_, ?_⟩
  · intro t
    simpa [pushQ2] using h1 t
  · intro t
    simp only [pushQ2, incScores, sumScores_append_single]
    rw [h2 t]
  · intro r hrm
    simpa [pushQ2] using h3 r hrm
  · intro r hrm t
    simp only [pushQ2] at hrm
    rcases List.mem_append.1 hrm with hm | hm
    · exact h4 r hm t
    · rcases List.mem_singleton.1 hm with rfl
      exact hr t

theorem popQ2ToQ1_scoreOk (s : MonState) (h : ScoreOk s) : ScoreOk (popQ2ToQ1 s) := by
  obtain ⟨h1, h2, h3, h4⟩ := h
  rcases hQ : s.tonesQ2 with _ | ⟨old2, rest⟩
  · have hid : popQ2ToQ1 s = s := by simp [popQ2ToQ1, hQ]
    rw [hid]
    exact ⟨h1, h2, h3, h4⟩
  · have hold2 : ∀ t, 0 ≤ old2.scores t :=
      h4 old2 (by rw [hQ]; exact List.mem_cons_self _ _)
    have hrest : ∀ r ∈ rest, ∀ t, 0 ≤ r.scores t := fun r hrm t =>
      h4 r (by rw [hQ]; exact List.mem_cons_of_mem _ hrm) t
    have hsum2 : ∀ t, s.tonesQ2Score t = old2.scores t + sumScores rest t := by
      intro t
      rw [h2 t, hQ, sumScores_cons]
    refine ⟨?_, ?_, ?_, ?_⟩ <;> simp only [popQ2ToQ1, hQ]
    · intro t
      simp only [incScores, sumScores_append_single]
      rw [h1 t]
    · intro t
      simp only [decScores]
      by_cases hpos : s.tonesQ2Score t > 0
      · rw [if_pos hpos, hsum2 t]
        ring
      · rw [if_neg hpos]
        have hge : 0 ≤ s.tonesQ2Score t := by
          rw [hsum2 t]
          have := sumScores_nonneg rest hrest t
          have := hold2 t
          linarith
        have heq : s.tonesQ2Score t = 0 := le_antisymm (not_lt.1 hpos) hge
        have hz : old2.scores t + sumScores rest t = 0 := by rw [← hsum2 t]; exact heq
        have := sumScores_nonneg rest hrest t
        have := hold2 t
        rw [heq]
        linarith
    · intro r hrm t
      rcases List.mem_append.1 hrm with hm | hm
      · exact h3 r hm t
      · rcases List.mem_singleton.1 hm with rfl
        exact hold2 t
    · intro r hrm t
      exact hrest r hrm t

theorem popQ1_scoreOk (s : MonState) (h : ScoreOk s) : ScoreOk (popQ1 s) := by
  obtain ⟨h1, h2, h3, h4⟩ := h
  rcases hQ : s.tonesQ1 with _ | ⟨old1, rest⟩
  · have hid : popQ1 s = s := by simp [popQ1, hQ]
    rw [hid]
    exact ⟨h1, h2, h3, h4⟩
  · have hold1 : ∀ t, 0 ≤ old1.scores t :=
      h3 old1 (by rw [hQ]; exact List.mem_cons_self _ _)
    have hrest : ∀ r ∈ rest, ∀ t, 0 ≤ r.scores t := fun r hrm t =>
      h3 r (by rw [hQ]; exact List.mem_cons_of_mem _ hrm) t
    have hsum1 : ∀ t, s.tonesQ1Score t = old1.scores t + sumScores rest t := by
      intro t
      rw [h1 t, hQ, sumScores_cons]
    refine ⟨?_, ?_, ?_, ?_⟩ <;> simp only [popQ1, hQ]
    · intro t
      simp only [decScores]
      by_cases hpos : s.tonesQ1Score t > 0
      · rw [if_pos hpos, hsum1 t]
        ring
      · rw [if_neg hpos]
        have hge : 0 ≤ s.tonesQ1Score t := by
          rw [hsum1 t]
          have := sumScores_nonneg rest hrest t
          have := hold1 t
          linarith
        have heq : s.tonesQ1Score t = 0 := le_antisymm (not_lt.1 hpos) hge
        have hz : old1.scores t + sumScores rest t = 0 := by rw [← hsum1 t]; exact heq
        have := sumScores_nonneg rest hrest t
        have := hold1 t
        rw [heq]
        linarith
    · intro t
      exact h2 t
    · intro r hrm t
      exact hrest r hrm t
    · intro r hrm t
      exact h4 r hrm t

theorem updateQueues_scoreOk (s : MonState) (trec : TonesRecord) (ws : ℕ)
    (h : ScoreOk s) (hr : ∀ t, 0 ≤ trec.scores t) :
    ScoreOk (updateQueues s trec ws) := by
  have h1 := pushQ2_scoreOk s trec h hr
  simp only [updateQueues]
  split
  · have h2 := popQ2ToQ1_scoreOk _ h1
    split
    · exact popQ1_scoreOk _ h2
    · exact h2
  · exact h1

/-- When the method-2 falling-edge reset did not run, `trackByScore`
leaves the score lists and both queues unchanged. -/
theorem trackByScore_state_of_not_reset (freq_hz : Int) (ts : String) (s : MonState)
    (ms : ℚ) (res : Output)
    (hnr : (trackByScore freq_hz ts s ms res).2.1.didResetScores = false) :
    (trackByScore freq_hz ts s ms res).1.tonesQ1Score = s.tonesQ1Score ∧
    (trackByScore freq_hz ts s ms res).1.tonesQ2Score = s.tonesQ2Score ∧
    (trackByScore freq_hz ts s ms res).1.tonesQ1 = s.tonesQ1 ∧
    (trackByScore freq_hz ts s ms res).1.tonesQ2 = s.tonesQ2 := by
  simp only [trackByScore, resetToneScores] at hnr ⊢
  split_ifs at hnr ⊢ <;> exact ⟨rfl, rfl, rfl, rfl⟩

/-- One `trackTones` call that did not take the method-2 falling-edge
branch preserves `ScoreOk`, provided the new record's scores are
nonnegative. -/
theorem trackTones_scoreOk (freq_hz : Int) (ts : String) (s : MonState)
    (trec : TonesRecord) (ws : ℕ) (mgc : Int) (ms : ℚ)
    (h : ScoreOk s) (hr : ∀ t, 0 ≤ trec.scores t)
    (hnr : (trackTones freq_hz ts s trec ws mgc ms).2.1.didResetScores = false) :
    ScoreOk (trackTones freq_hz ts s trec ws mgc ms).1 := by
  have hbs : (trackByScore freq_hz ts
      (trackByMaxTones freq_hz ts s trec ws mgc { current_tgc := trec.gtc }).1 ms
      (trackByMaxTones freq_hz ts s trec ws mgc { current_tgc := trec.gtc }).2.1).2.1.didResetScores
      = false := by
    simpa only [trackTones] using hnr
  obtain ⟨hb1, hb2, hb3, hb4⟩ := trackByScore_state_of_not_reset freq_hz ts
    (trackByMaxTones freq_hz ts s trec ws mgc { current_tgc := trec.gtc }).1 ms
    (trackByMaxTones freq_hz ts s trec ws mgc { current_tgc := trec.gtc }).2.1 hbs
  obtain ⟨hf1, hf2, hf3, hf4⟩ := trackByMaxTones_fields freq_hz ts s trec ws mgc
    { current_tgc := trec.gtc }
  have hu := updateQueues_scoreOk s trec ws h hr
  obtain ⟨u1, u2, u3, u4⟩ := hu
  simp only [trackTones]
  refine ⟨?_, ?_, ?_, ?_⟩
  · intro t
    rw [hb1, hf3, hb3, hf1]
    exact u1 t
  · intro t
    rw [hb2, hf4, hb4, hf2]
    exact u2 t
  · intro r hrm
    rw [hb3, hf1] at hrm
    exact u3 r hrm
  · intro r hrm
    rw [hb4, hf2] at hrm
    exact u4 r hrm

/-- `ScoreOk` holds after every run of nonnegative-score records in which
no call took the method-2 falling-edge score reset. -/
theorem runTrack_scoreOk (freq_hz : Int) (ws : ℕ) (mgc : Int) (ms : ℚ) :
    ∀ (inputs : List (TonesRecord × String)) (s : MonState),
      ScoreOk s →
      (∀ p ∈ inputs, ∀ t, 0 ≤ p.1.scores t) →
      (∀ out ∈ (runTrack freq_hz ws mgc ms s inputs).2.1, out.didResetScores = false) →
      ScoreOk (runTrack freq_hz ws mgc ms s inputs).1 := by
  intro inputs
  induction inputs with
  | nil =>
    intro s h _ _
    exact h
  | cons p rest ih =>
    obtain ⟨r, ts⟩ := p
    intro s h hin hnr
    have hhead : (trackTones freq_hz ts s r ws mgc ms).2.1.didResetScores = false := by
      apply hnr
      simp only [runTrack]
      exact List.mem_cons_self _ _
    have htail : ∀ out ∈ (runTrack freq_hz ws mgc ms
        (trackTones freq_hz ts s r ws mgc ms).1 rest).2.1, out.didResetScores = false := by
      intro out hout
      apply hnr
      simp only [runTrack]
      exact List.mem_cons_of_mem _ hout
    have hr : ∀ t, 0 ≤ r.scores t := hin (r, ts) (List.mem_cons_self _ _)
    have h' := trackTones_scoreOk freq_hz ts s r ws mgc ms h hr hhead
    have hin' : ∀ p ∈ rest, ∀ t, 0 ≤ p.1.scores t := fun p hp =>
      hin p (List.mem_cons_of_mem _ hp)
    simpa only [runTrack] using ih _ h' hin' htail

/-- Fold step of the first maximum scan, named for the lemmas below. -/
theorem maxScan_eq_foldl (corr : Vec16) :
    maxScan corr = toneIdxList.foldl
      (fun acc t => if corr t > acc.1 then (corr t, (t : Int)) else acc) (0, -1) := rfl

theorem foldl_maxStep_fst_mono (corr : Vec16) (l : List (Fin 16)) (acc : ℚ × Int) :
    acc.1 ≤ (l.foldl (fun acc t => if corr t > acc.1 then (corr t, (t : Int)) else acc) acc).1 := by
  induction l generalizing acc with
  | nil => exact le_refl _
  | cons t rest ih =>
    refine le_trans ?_ (ih _)
    by_cases h : corr t > acc.1
    · simp only [if_pos h]
      exact le_of_lt h
    · simp only [if_neg h]
      exact le_refl _

theorem foldl_maxStep_le (corr : Vec16) (l : List (Fin 16)) (acc : ℚ × Int) :
    ∀ t ∈ l, corr t ≤
      (l.foldl (fun acc t => if corr t > acc.1 then (corr t, (t : Int)) else acc) acc).1 := by
  induction l generalizing acc with
  | nil => intro t ht; simp at ht
  | cons u rest ih =>
    intro t ht
    rcases List.mem_cons.1 ht with rfl | hm
    · refine le_trans ?_ (foldl_maxStep_fst_mono corr rest _)
      by_cases h : corr t > acc.1
      · simp only [if_pos h]
        exact le_refl _
      · simp only [if_neg h]
        exact not_lt.1 h
    · exact ih _ t hm

/-- Every correlation value is bounded by the scanned maximum. -/
theorem le_maxScan (corr : Vec16) (t : Fin 16) : corr t ≤ (maxScan corr).1 :=
  foldl_maxStep_le corr toneIdxList (0, -1) t (by simp [toneIdxList, List.mem_finRange])

/-- The scanned maximum is nonnegative (the accumulator starts at 0). -/
theorem maxScan_nonneg (corr : Vec16) : 0 ≤ (maxScan corr).1 :=
  foldl_maxStep_fst_mono corr toneIdxList (0, -1)

/-- The average of the 16 correlation values is at most the scanned
maximum. -/
theorem avg_le_maxScan (corr : Vec16) : totCorr corr / 16 ≤ (maxScan corr).1 := by
  have hlen : (toneIdxList.map corr).length = 16 := by simp [toneIdxList]
  have hsum : totCorr corr ≤ 16 * (maxScan corr).1 := by
    have := List.sum_le_card_nsmul (toneIdxList.map corr) (maxScan corr).1 ?_
    · rw [hlen] at this
      simpa [totCorr, nsmul_eq_mul] using this
    · intro x hx
      obtain ⟨t, _, rfl⟩ := List.mem_map.1 hx
      exact le_maxScan corr t
  rw [div_le_iff₀ (by norm_num : (0:ℚ) < 16)]
  linarith

/-- The score formula of `computeScores` yields nonnegative values
whenever the average does not exceed the maximum. -/
theorem computeScores_nonneg (corr : Vec16) (idx1 idx2 : Int) (mx avg : ℚ)
    (havg : avg ≤ mx) (t : Fin 16) :
    0 ≤ computeScores corr idx1 idx2 mx avg t := by
  have hs5 : (0:ℚ) < score_bin_size := by norm_num [score_bin_size]
  simp only [computeScores]
  split_ifs with h1 h2
  · norm_num
  · have hbc : 0 ≤ (mx - avg) / score_bin_size :=
      div_nonneg (sub_nonneg.2 havg) (le_of_lt hs5)
    rcases eq_or_lt_of_le hbc with hz | hpos
    · rw [← hz, div_zero, Int.floor_zero]
      norm_num
    · have hdv : 0 < corr t - avg := sub_pos.2 h2
      have hq : 0 ≤ (corr t - avg) / ((mx - avg) / score_bin_size) :=
        le_of_lt (div_pos hdv hpos)
      have hfl : (0:Int) ≤ ⌊(corr t - avg) / ((mx - avg) / score_bin_size)⌋ :=
        Int.floor_nonneg.2 hq
      have hc : (0:ℚ) ≤ (⌊(corr t - avg) / ((mx - avg) / score_bin_size)⌋ : ℚ) := by
        exact_mod_cast hfl
      exact div_nonneg hc (le_of_lt hs5)
  · exact le_refl _

/-- The scores of a record built by `computeStats` are nonnegative. -/
theorem computeStats_scores_nonneg (corr : Vec16) (t : Fin 16) :
    0 ≤ (computeStats corr).scores t := by
  have havg : totCorr corr / 16 ≤ (maxScan corr).1 := avg_le_maxScan corr
  simp only [computeStats]
  exact computeScores_nonneg corr _ _ _ _ havg t

/-- C2 (amended): for every run of track calls on a fresh DecoderState
whose records are built by the frame analyzer from correlation vectors,
if no call has taken the method-2 falling-edge branch that zeroes the
score lists, then after the run every entry of scoreQ1 and scoreQ2 is
nonnegative.  (Eviction subtracts a record's scores only from entries
that are currently positive — a skip guard rather than a clamp — which
preserves nonnegativity exactly as long as no reset has decoupled the
running sums from the queue contents.) -/
theorem c2_score_nonneg_invariant (freq_hz : Int) (ws : ℕ) (mgc : Int) (ms : ℚ)
    (corrs : List (Vec16 × String))
    (hnr : ∀ out ∈ (runTrack freq_hz ws mgc ms freshState
        (corrs.map (fun c => (computeStats c.1, c.2)))).2.1,
      out.didResetScores = false) :
    (∀ t, 0 ≤ (runTrack freq_hz ws mgc ms freshState
        (corrs.map (fun c => (computeStats c.1, c.2)))).1.tonesQ1Score t) ∧
    (∀ t, 0 ≤ (runTrack freq_hz ws mgc ms freshState
        (corrs.map (fun c => (computeStats c.1, c.2)))).1.tonesQ2Score t) := by
  have h0 : ScoreOk freshState := by
    refine ⟨?_, ?_, ?_, ?_⟩
    · intro t; simp [freshState, sumScores]
    · intro t; simp [freshState, sumScores]
    · intro r hr; simp [freshState] at hr
    · intro r hr; simp [freshState] at hr
  have hin : ∀ p ∈ corrs.map (fun c => (computeStats c.1, c.2)), ∀ t, 0 ≤ p.1.scores t := by
    intro p hp t
    obtain ⟨c, _, rfl⟩ := List.mem_map.1 hp
    exact computeStats_scores_nonneg c.1 t
  obtain ⟨h1, h2, h3, h4⟩ := runTrack_scoreOk freq_hz ws mgc ms
    (corrs.map (fun c => (computeStats c.1, c.2))) freshState h0 hin hnr
  constructor
  · intro t
    rw [h1 t]
    apply sumScores_nonneg _ h3
  · intro t
    rw [h2 t]
    apply sumScores_nonneg _ h4

/-- C2 witness: a concrete two-vector run without resets. -/
theorem c2_witness :
    (∀ t, 0 ≤ (runTrack 8864 1 100 100 freshState
        ([(corrOf [10, 10, 1, 1, 1, 1, 1, 1, 1, 1, 1, 1, 1, 1, 1, 1], tsA),
          (corrOf [1, 1, 10, 10, 1, 1, 1, 1, 1, 1, 1, 1, 1, 1, 1, 1], tsA)].map
          (fun c => (computeStats c.1, c.2)))).1.tonesQ1Score t) ∧
    (∀ t, 0 ≤ (runTrack 8864 1 100 100 freshState
        ([(corrOf [10, 10, 1, 1, 1, 1, 1, 1, 1, 1, 1, 1, 1, 1, 1, 1], tsA),
          (corrOf [1, 1, 10, 10, 1, 1, 1, 1, 1, 1, 1, 1, 1, 1, 1, 1], tsA)].map
          (fun c => (computeStats c.1, c.2)))).1.tonesQ2Score t) :=
  c2_score_nonneg_invariant 8864 1 100 100
    [(corrOf [10, 10, 1, 1, 1, 1, 1, 1, 1, 1, 1, 1, 1, 1, 1, 1], tsA),
     (corrOf [1, 1, 10, 10, 1, 1, 1, 1, 1, 1, 1, 1, 1, 1, 1, 1], tsA)] (by decide)

/-
C4 and C5: the max-index invariant and the score ranges of a TonesRecord.
-/

theorem foldl_maxStep_snd_cases (corr : Vec16) (l : List (Fin 16)) (acc : ℚ × Int) :
    (l.foldl (fun acc t => if corr t > acc.1 then (corr t, (t : Int)) else acc) acc).2 = acc.2 ∨
    ∃ t : Fin 16, (l.foldl (fun acc t => if corr t > acc.1 then (corr t, (t : Int)) else acc) acc).2
      = (t : Int) := by
  induction l generalizing acc with
  | nil => exact Or.inl rfl
  | cons u rest ih =>
    simp only [List.foldl_cons]
    by_cases hc : corr u > acc.1
    · rw [if_pos hc]
      rcases ih (corr u, (u : Int)) with h | h
      · exact Or.inr ⟨u, h⟩
      · exact Or.inr h
    · rw [if_neg hc]
      exact ih acc

theorem foldl_maxStep_neg_idx (corr : Vec16) (l : List (Fin 16)) (acc : ℚ × Int)
    (hacc : acc.2 < 0 → acc.1 = 0) :
    (l.foldl (fun acc t => if corr t > acc.1 then (corr t, (t : Int)) else acc) acc).2 < 0 →
    (l.foldl (fun acc t => if corr t > acc.1 then (corr t, (t : Int)) else acc) acc).1 = 0 := by
  induction l generalizing acc with
  | nil => exact hacc
  | cons u rest ih =>
    simp only [List.foldl_cons]
    apply ih
    by_cases hc : corr u > acc.1
    · rw [if_pos hc]
      intro hneg
      exfalso
      have : (0:Int) ≤ (u : Int) := Int.ofNat_nonneg _
      omega
    · rw [if_neg hc]
      exact hacc

/-- The first scan returns an index in [-1, 16). -/
theorem maxScan_snd_bounds (corr : Vec16) :
    -1 ≤ (maxScan corr).2 ∧ (maxScan corr).2 < 16 := by
  rcases foldl_maxStep_snd_cases corr toneIdxList (0, -1) with h | ⟨t, h⟩
  · rw [maxScan_eq_foldl, h]
    norm_num
  · rw [maxScan_eq_foldl, h]
    have h1 := t.isLt
    constructor
    · have : (0:Int) ≤ (t : Int) := Int.ofNat_nonneg _
      omega
    · exact_mod_cast h1

/-- When the scanned maximum is positive its index is a real tone index. -/
theorem maxScan_pos_idx (corr : Vec16) (h : 0 < (maxScan corr).1) :
    0 ≤ (maxScan corr).2 := by
  by_contra hneg
  have := foldl_maxStep_neg_idx corr toneIdxList (0, -1) (fun _ => rfl)
    (by rw [← maxScan_eq_foldl]; omega)
  rw [← maxScan_eq_foldl] at this
  rw [this] at h
  exact lt_irrefl _ h

theorem gapStep_idx_nonneg (corr : Vec16) (m1 : ℚ) (i1 : Int) (acc : ℚ × Int) (t : Fin 16)
    (h : 0 ≤ acc.2) : 0 ≤ (gapStep corr m1 i1 acc t).2 := by
  simp only [gapStep]
  split_ifs
  · exact Int.ofNat_nonneg _
  · exact h

theorem foldl_gapStep_idx_nonneg (corr : Vec16) (m1 : ℚ) (i1 : Int) (l : List (Fin 16))
    (acc : ℚ × Int) (h : 0 ≤ acc.2) : 0 ≤ (l.foldl (gapStep corr m1 i1) acc).2 := by
  induction l generalizing acc with
  | nil => exact h
  | cons u rest ih => exact ih _ (gapStep_idx_nonneg corr m1 i1 acc u h)

theorem foldl_gapStep_reach (corr : Vec16) (m1 : ℚ) (i1 : Int) (hm1 : 0 < m1)
    (t0 : Fin 16) (ht0 : (t0 : Int) ≠ i1) (hgt : corr t0 > m1 / 4) :
    ∀ (l : List (Fin 16)) (acc : ℚ × Int), t0 ∈ l →
      (0 ≤ acc.2 ∨ (acc.1 = 0 ∧ acc.2 = -1)) →
      0 ≤ (l.foldl (gapStep corr m1 i1) acc).2 := by
  intro l
  induction l with
  | nil => intro acc hm _; simp at hm
  | cons u rest ih =>
    intro acc hmem hinv
    rw [List.foldl_cons]
    rcases hinv with hge | ⟨hz, hneg⟩
    · exact foldl_gapStep_idx_nonneg corr m1 i1 rest _
        (gapStep_idx_nonneg corr m1 i1 acc u hge)
    · rcases List.mem_cons.1 hmem with heq | hmem'
      · have hcond : (u : Int) ≠ i1 ∧ corr u > acc.1 ∧ corr u - acc.1 > (m1 - acc.1) / 4 := by
          rw [← heq]
          refine ⟨ht0, ?_, ?_⟩
          · rw [hz]
            calc (0:ℚ) < m1 / 4 := by positivity
              _ < corr t0 := hgt
          · rw [hz]
            simpa using hgt
        have hstep : gapStep corr m1 i1 acc u = (corr u, (u : Int)) := by
          simp only [gapStep, if_pos hcond]
        rw [hstep]
        exact foldl_gapStep_idx_nonneg corr m1 i1 rest _ (Int.ofNat_nonneg _)
      · apply ih _ hmem'
        by_cases hc : (u : Int) ≠ i1 ∧ corr u > acc.1 ∧ corr u - acc.1 > (m1 - acc.1) / 4
        · left
          simp only [gapStep, if_pos hc]
          exact Int.ofNat_nonneg _
        · right
          simp only [gapStep, if_neg hc]
          exact ⟨hz, hneg⟩

theorem foldl_gapStep_snd_cases (corr : Vec16) (m1 : ℚ) (i1 : Int) (l : List (Fin 16))
    (acc : ℚ × Int) :
    (l.foldl (gapStep corr m1 i1) acc).2 = acc.2 ∨
    ∃ t : Fin 16, (t : Int) ≠ i1 ∧ (l.foldl (gapStep corr m1 i1) acc).2 = (t : Int) := by
  induction l generalizing acc with
  | nil => exact Or.inl rfl
  | cons u rest ih =>
    rw [List.foldl_cons]
    rcases ih (gapStep corr m1 i1 acc u) with h | h
    · rw [h]
      by_cases hc : (u : Int) ≠ i1 ∧ corr u > acc.1 ∧ corr u - acc.1 > (m1 - acc.1) / 4
      · simp only [gapStep, if_pos hc]
        exact Or.inr ⟨u, hc.1, rfl⟩
      · simp only [gapStep, if_neg hc]
        exact Or.inl trivial
    · exact Or.inr h

/-- The detailed index facts about a record built by `computeStats` when
the correlation vector has a positive entry and a second tone clearing the
quarter-gap test: both stored indices are real tone indices in ascending
order. -/
theorem computeStats_idx_spec (corr : Vec16)
    (hpos : ∃ t : Fin 16, 0 < corr t)
    (hsecond : ∃ t : Fin 16, (t : Int) ≠ (maxScan corr).2 ∧
      corr t > (maxScan corr).1 / 4) :
    0 ≤ (computeStats corr).max1idx ∧ (computeStats corr).max1idx < 16 ∧
    0 ≤ (computeStats corr).max2idx ∧ (computeStats corr).max2idx < 16 ∧
    (computeStats corr).max1idx < (computeStats corr).max2idx := by
  obtain ⟨tp, htp⟩ := hpos
  obtain ⟨t0, ht0, hgt⟩ := hsecond
  have hm1pos : 0 < (maxScan corr).1 := lt_of_lt_of_le htp (le_maxScan corr tp)
  have hi1 : 0 ≤ (maxScan corr).2 := maxScan_pos_idx corr hm1pos
  have hi1lt : (maxScan corr).2 < 16 := (maxScan_snd_bounds corr).2
  have hi2 : 0 ≤ (secondScan corr (maxScan corr).1 (maxScan corr).2).2 :=
    foldl_gapStep_reach corr (maxScan corr).1 (maxScan corr).2 hm1pos t0 ht0 hgt
      toneIdxList (0, -1) (by simp [toneIdxList, List.mem_finRange]) (Or.inr ⟨rfl, rfl⟩)
  have hi2cases := foldl_gapStep_snd_cases corr (maxScan corr).1 (maxScan corr).2
    toneIdxList (0, -1)
  have hi2ne : (secondScan corr (maxScan corr).1 (maxScan corr).2).2 ≠ (maxScan corr).2 ∧
      (secondScan corr (maxScan corr).1 (maxScan corr).2).2 < 16 := by
    rcases hi2cases with h | ⟨t, htne, ht⟩
    · rw [secondScan] at hi2
      rw [h] at hi2
      norm_num at hi2
    · rw [secondScan] at hi2 ⊢
      rw [ht]
      have h1 := t.isLt
      exact ⟨htne, by exact_mod_cast h1⟩
  simp only [computeStats]
  by_cases hswap : (maxScan corr).2 > (secondScan corr (maxScan corr).1 (maxScan corr).2).2
  · simp only [if_pos hswap]
    omega
  · simp only [if_neg hswap]
    have := hi2ne.1
    have := hi2ne.2
    omega

/-- C4 counterexample: the all-zero correlation vector produces a record
with `max1idx = max2idx = -1`, so the indices are equal and out of range. -/
theorem c4_counterexample :
    rZero.max1idx = -1 ∧ rZero.max2idx = -1 ∧
    ¬(rZero.max1idx ≠ rZero.max2idx ∧ 0 ≤ rZero.max1idx) := by decide

/-- C4 (amended): for every TonesRecord built from a 16-entry correlation
vector that has a positive entry and has some other tone whose value
clears the quarter-gap test against the scanned maximum (as every real
log-correlation frame does), the two stored indices are distinct, both lie
in [0, 16), and `max1idx < max2idx` after normalization.  Without that
assumption the scans can leave either index at its initial value -1 (see
the counterexample). -/
theorem c4_max_indices (corr : Vec16)
    (hpos : ∃ t : Fin 16, 0 < corr t)
    (hsecond : ∃ t : Fin 16, (t : Int) ≠ (maxScan corr).2 ∧
      corr t > (maxScan corr).1 / 4) :
    (computeStats corr).max1idx ≠ (computeStats corr).max2idx ∧
    0 ≤ (computeStats corr).max1idx ∧ (computeStats corr).max1idx < 16 ∧
    0 ≤ (computeStats corr).max2idx ∧ (computeStats corr).max2idx < 16 ∧
    (computeStats corr).max1idx < (computeStats corr).max2idx := by
  obtain ⟨h1, h2, h3, h4, h5⟩ := computeStats_idx_spec corr hpos hsecond
  exact ⟨ne_of_lt h5, h1, h2, h3, h4, h5⟩

/-- C4 witness: the record rAB satisfies the hypotheses concretely. -/
theorem c4_witness :
    (∃ t : Fin 16, 0 < corrOf [10, 10, 1, 1, 1, 1, 1, 1, 1, 1, 1, 1, 1, 1, 1, 1] t) ∧
    ((computeStats (corrOf [10, 10, 1, 1, 1, 1, 1, 1, 1, 1, 1, 1, 1, 1, 1, 1])).max1idx ≠
      (computeStats (corrOf [10, 10, 1, 1, 1, 1, 1, 1, 1, 1, 1, 1, 1, 1, 1, 1])).max2idx ∧
    0 ≤ (computeStats (corrOf [10, 10, 1, 1, 1, 1, 1, 1, 1, 1, 1, 1, 1, 1, 1, 1])).max1idx ∧
    (computeStats (corrOf [10, 10, 1, 1, 1, 1, 1, 1, 1, 1, 1, 1, 1, 1, 1, 1])).max1idx < 16 ∧
    0 ≤ (computeStats (corrOf [10, 10, 1, 1, 1, 1, 1, 1, 1, 1, 1, 1, 1, 1, 1, 1])).max2idx ∧
    (computeStats (corrOf [10, 10, 1, 1, 1, 1, 1, 1, 1, 1, 1, 1, 1, 1, 1, 1])).max2idx < 16 ∧
    (computeStats (corrOf [10, 10, 1, 1, 1, 1, 1, 1, 1, 1, 1, 1, 1, 1, 1, 1])).max1idx <
      (computeStats (corrOf [10, 10, 1, 1, 1, 1, 1, 1, 1, 1, 1, 1, 1, 1, 1, 1])).max2idx) :=
  ⟨⟨(0 : Fin 16), by decide⟩,
   c4_max_indices (corrOf [10, 10, 1, 1, 1, 1, 1, 1, 1, 1, 1, 1, 1, 1, 1, 1])
     (by decide) (by decide)⟩

theorem computeStats_scores (corr : Vec16) :
    (computeStats corr).scores = computeScores corr (computeStats corr).max1idx
      (computeStats corr).max2idx (computeStats corr).max (computeStats corr).avg := rfl

theorem computeStats_corr (corr : Vec16) : (computeStats corr).corr = corr := rfl

theorem computeStats_max (corr : Vec16) : (computeStats corr).max = (maxScan corr).1 := rfl

theorem computeStats_avg (corr : Vec16) : (computeStats corr).avg = totCorr corr / 16 := rfl

theorem pyIdx_coe_of_range (i : Int) (h0 : 0 ≤ i) (h1 : i < 16) :
    ((pyIdx i : Fin 16) : Int) = i := by
  simp only [pyIdx]
  rw [Int.emod_eq_of_lt h0 h1]
  exact Int.toNat_of_nonneg h0

/-- The middle branch of `computeScores` produces `k / 5` with
`0 ≤ k ≤ 5`, and `k ≤ 4` unless the tone's correlation equals the
maximum. -/
theorem computeScores_mid_bin (corr : Vec16) (t : Fin 16) (mx avg : ℚ)
    (hmx : corr t ≤ mx) (hgt : corr t > avg) :
    0 ≤ ⌊(corr t - avg) / ((mx - avg) / score_bin_size)⌋ ∧
    ⌊(corr t - avg) / ((mx - avg) / score_bin_size)⌋ ≤ 5 ∧
    (corr t ≠ mx → ⌊(corr t - avg) / ((mx - avg) / score_bin_size)⌋ ≤ 4) ∧
    0 < (mx - avg) / score_bin_size := by
  have hs5 : (0:ℚ) < score_bin_size := by norm_num [score_bin_size]
  have hlt : avg < mx := lt_of_lt_of_le hgt hmx
  have hbc : 0 < (mx - avg) / score_bin_size := div_pos (sub_pos.2 hlt) hs5
  have hdv : 0 < corr t - avg := sub_pos.2 hgt
  have hk0 : 0 ≤ ⌊(corr t - avg) / ((mx - avg) / score_bin_size)⌋ :=
    Int.floor_nonneg.2 (le_of_lt (div_pos hdv hbc))
  have hmul : score_bin_size * ((mx - avg) / score_bin_size) = mx - avg := by
    field_simp
  have hk5 : ⌊(corr t - avg) / ((mx - avg) / score_bin_size)⌋ ≤ 5 := by
    have hle : (corr t - avg) / ((mx - avg) / score_bin_size) ≤ 5 := by
      rw [div_le_iff₀ hbc]
      have : corr t - avg ≤ mx - avg := by linarith
      calc corr t - avg ≤ mx - avg := this
        _ = score_bin_size * ((mx - avg) / score_bin_size) := hmul.symm
        _ = 5 * ((mx - avg) / score_bin_size) := by norm_num [score_bin_size]
    calc ⌊(corr t - avg) / ((mx - avg) / score_bin_size)⌋ ≤ ⌊(5:ℚ)⌋ := Int.floor_mono hle
      _ = 5 := by norm_num
  refine ⟨hk0, hk5, ?_, hbc⟩
  intro hne
  by_contra hk4
  have hk : (5:Int) ≤ ⌊(corr t - avg) / ((mx - avg) / score_bin_size)⌋ := by omega
  have h5le : (5:ℚ) ≤ (corr t - avg) / ((mx - avg) / score_bin_size) := by
    have := Int.le_floor.1 hk
    exact_mod_cast this
  have h5bc : 5 * ((mx - avg) / score_bin_size) ≤ corr t - avg :=
    (le_div_iff₀ hbc).1 h5le
  have hmul5 : (5:ℚ) * ((mx - avg) / score_bin_size) = mx - avg := by
    rw [show (5:ℚ) = score_bin_size by norm_num [score_bin_size]]
    exact hmul
  have hge : mx ≤ corr t := by
    rw [hmul5] at h5bc
    linarith
  exact hne (le_antisymm hmx hge)

/-- C5 counterexample: three concrete correlation vectors violating the
claim.  With corr = [10,10,3,1,...]: tone 2 is above the average yet gets
score 0 (the claimed `scores[i] = 0 ⇒ corr[i] ≤ avg` fails).  With
corr = [10,10,10,1,...]: tone 2 is not a max tone and is above average yet
gets score 1.0, outside the claimed {0.0,...,0.8}.  With the all-zero
vector, `scores[max1idx]` is 0, not 1.0. -/
theorem c5_counterexample :
    ((computeStats (corrOf [10, 10, 3, 1, 1, 1, 1, 1, 1, 1, 1, 1, 1, 1, 1, 1])).scores
        (2 : Fin 16) = 0 ∧
      (computeStats (corrOf [10, 10, 3, 1, 1, 1, 1, 1, 1, 1, 1, 1, 1, 1, 1, 1])).corr
        (2 : Fin 16) >
      (computeStats (corrOf [10, 10, 3, 1, 1, 1, 1, 1, 1, 1, 1, 1, 1, 1, 1, 1])).avg) ∧
    ((computeStats (corrOf [10, 10, 10, 1, 1, 1, 1, 1, 1, 1, 1, 1, 1, 1, 1, 1])).max1idx = 0 ∧
      (computeStats (corrOf [10, 10, 10, 1, 1, 1, 1, 1, 1, 1, 1, 1, 1, 1, 1, 1])).max2idx = 1 ∧
      (computeStats (corrOf [10, 10, 10, 1, 1, 1, 1, 1, 1, 1, 1, 1, 1, 1, 1, 1])).corr
        (2 : Fin 16) >
        (computeStats (corrOf [10, 10, 10, 1, 1, 1, 1, 1, 1, 1, 1, 1, 1, 1, 1, 1])).avg ∧
      (computeStats (corrOf [10, 10, 10, 1, 1, 1, 1, 1, 1, 1, 1, 1, 1, 1, 1, 1])).scores
        (2 : Fin 16) = 1) ∧
    rZero.scores (pyIdx rZero.max1idx) = 0 := by decide

/-- C5 (amended): for every TonesRecord built from a correlation vector
with a positive entry and a qualifying second tone (so that the max
indices are valid): the scores at `max1idx` and `max2idx` are 1.0; every
score lies in {0.0, 0.2, 0.4, 0.6, 0.8, 1.0}; the score of a non-max tone
above the average lies in {0.0, 0.2, 0.4, 0.6, 0.8} provided its
correlation is not itself equal to the maximum; and a zero score means
the tone is at most the average or within the first fifth of the
(avg, max] band. -/
theorem c5_scores_range (corr : Vec16)
    (hpos : ∃ t : Fin 16, 0 < corr t)
    (hsecond : ∃ t : Fin 16, (t : Int) ≠ (maxScan corr).2 ∧
      corr t > (maxScan corr).1 / 4) :
    (computeStats corr).scores (pyIdx (computeStats corr).max1idx) = 1 ∧
    (computeStats corr).scores (pyIdx (computeStats corr).max2idx) = 1 ∧
    (∀ t, (computeStats corr).scores t ∈ ([0, 1/5, 2/5, 3/5, 4/5, 1] : List ℚ)) ∧
    (∀ t : Fin 16, ¬((t : Int) = (computeStats corr).max1idx ∨
        (t : Int) = (computeStats corr).max2idx) →
      (computeStats corr).corr t > (computeStats corr).avg →
      (computeStats corr).corr t ≠ (computeStats corr).max →
      (computeStats corr).scores t ∈ ([0, 1/5, 2/5, 3/5, 4/5] : List ℚ)) ∧
    (∀ t, (computeStats corr).scores t = 0 →
      (computeStats corr).corr t ≤ (computeStats corr).avg ∨
      (computeStats corr).corr t - (computeStats corr).avg <
        ((computeStats corr).max - (computeStats corr).avg) / 5) := by
  obtain ⟨hi1, hi1lt, hi2, hi2lt, hlt⟩ := computeStats_idx_spec corr hpos hsecond
  have hmx : ∀ t, corr t ≤ (computeStats corr).max := by
    intro t
    rw [computeStats_max]
    exact le_maxScan corr t
  refine ⟨?_, ?_, ?_, ?_, ?_⟩
  · rw [computeStats_scores]
    simp only [computeScores]
    rw [if_pos (Or.inl (pyIdx_coe_of_range _ hi1 hi1lt))]
  · rw [computeStats_scores]
    simp only [computeScores]
    rw [if_pos (Or.inr (pyIdx_coe_of_range _ hi2 hi2lt))]
  · intro t
    rw [computeStats_scores]
    simp only [computeScores]
    split_ifs with h1 h2
    · simp
    · obtain ⟨hk0, hk5, _, _⟩ := computeScores_mid_bin corr t
        (computeStats corr).max (computeStats corr).avg (hmx t) h2
      set k := ⌊(corr t - (computeStats corr).avg) /
        (((computeStats corr).max - (computeStats corr).avg) / score_bin_size)⌋ with hk
      interval_cases k <;> norm_num [score_bin_size]
    · simp
  · intro t ht12 hgt hne
    rw [computeStats_corr] at hgt hne
    rw [computeStats_scores]
    simp only [computeScores]
    rw [if_neg ht12, if_pos hgt]
    obtain ⟨hk0, _, hk4, _⟩ := computeScores_mid_bin corr t
      (computeStats corr).max (computeStats corr).avg (hmx t) hgt
    have hk4' := hk4 hne
    set k := ⌊(corr t - (computeStats corr).avg) /
      (((computeStats corr).max - (computeStats corr).avg) / score_bin_size)⌋ with hk
    interval_cases k <;> norm_num [score_bin_size]
  · intro t hz
    rw [computeStats_corr]
    rw [computeStats_scores] at hz
    simp only [computeScores] at hz
    split_ifs at hz with h1 h2
    · exact absurd hz one_ne_zero
    · right
      obtain ⟨hk0, hk5, _, hbc⟩ := computeScores_mid_bin corr t
        (computeStats corr).max (computeStats corr).avg (hmx t) h2
      have hs5 : (0:ℚ) < score_bin_size := by norm_num [score_bin_size]
      have hkq : (⌊(corr t - (computeStats corr).avg) /
          (((computeStats corr).max - (computeStats corr).avg) / score_bin_size)⌋ : ℚ) = 0 := by
        rcases div_eq_zero_iff.1 hz with h | h
        · exact h
        · exact absurd h (by norm_num [score_bin_size])
      have hkz : ⌊(corr t - (computeStats corr).avg) /
          (((computeStats corr).max - (computeStats corr).avg) / score_bin_size)⌋ = 0 := by
        exact_mod_cast hkq
      have hlt1 : (corr t - (computeStats corr).avg) /
          (((computeStats corr).max - (computeStats corr).avg) / score_bin_size) < 1 := by
        have := Int.lt_floor_add_one ((corr t - (computeStats corr).avg) /
          (((computeStats corr).max - (computeStats corr).avg) / score_bin_size))
        rw [hkz] at this
        simpa using this
      have hdvlt : corr t - (computeStats corr).avg <
          ((computeStats corr).max - (computeStats corr).avg) / score_bin_size := by
        rw [div_lt_one hbc] at hlt1
        exact hlt1
      have : score_bin_size = (5:ℚ) := by norm_num [score_bin_size]
      rw [this] at hdvlt
      exact hdvlt
    · left
      exact not_lt.1 h2

/-- C5 witness: the vector behind rAB satisfies the hypotheses, and its
scores land in the claimed sets. -/
theorem c5_witness :
    (computeStats (corrOf [10, 10, 1, 1, 1, 1, 1, 1, 1, 1, 1, 1, 1, 1, 1, 1])).scores
      (pyIdx (computeStats
        (corrOf [10, 10, 1, 1, 1, 1, 1, 1, 1, 1, 1, 1, 1, 1, 1, 1])).max1idx) = 1 ∧
    (computeStats (corrOf [10, 10, 1, 1, 1, 1, 1, 1, 1, 1, 1, 1, 1, 1, 1, 1])).scores
      (pyIdx (computeStats
        (corrOf [10, 10, 1, 1, 1, 1, 1, 1, 1, 1, 1, 1, 1, 1, 1, 1])).max2idx) = 1 ∧
    (∀ t, (computeStats (corrOf [10, 10, 1, 1, 1, 1, 1, 1, 1, 1, 1, 1, 1, 1, 1, 1])).scores t
      ∈ ([0, 1/5, 2/5, 3/5, 4/5, 1] : List ℚ)) := by
  obtain ⟨h1, h2, h3, _, _⟩ := c5_scores_range
    (corrOf [10, 10, 1, 1, 1, 1, 1, 1, 1, 1, 1, 1, 1, 1, 1, 1]) (by decide) (by decide)
  exact ⟨h1, h2, h3⟩

/-
C6: what method 1 guarantees when it reports an active SELCAL.
-/

theorem foldl_scanStep_snd_mono (excl : Option String) (m : CntMap)
    (acc : Option String × Int) :
    acc.2 ≤ (m.foldl (scanStep excl) acc).2 := by
  induction m generalizing acc with
  | nil => exact le_refl _
  | cons u rest ih =>
    rw [List.foldl_cons]
    refine le_trans ?_ (ih _)
    simp only [scanStep]
    split_ifs with hc
    · exact le_of_lt hc.2
    · exact le_refl _

theorem foldl_scanStep_le (excl : Option String) (m : CntMap) (acc : Option String × Int) :
    ∀ e ∈ m, excl ≠ some e.1 → e.2 ≤ (m.foldl (scanStep excl) acc).2 := by
  induction m generalizing acc with
  | nil => intro e he; simp at he
  | cons u rest ih =>
    intro e he hex
    rw [List.foldl_cons]
    rcases List.mem_cons.1 he with rfl | hmem
    · refine le_trans ?_ (foldl_scanStep_snd_mono excl rest _)
      simp only [scanStep]
      split_ifs with hc
      · exact le_refl _
      · have : ¬ e.2 > acc.2 := fun hgt => hc ⟨hex, hgt⟩
        exact not_lt.1 this
    · exact ih _ e hmem hex

theorem foldl_scanStep_cases (excl : Option String) (m : CntMap) (acc : Option String × Int) :
    (m.foldl (scanStep excl) acc) = acc ∨
    ∃ e ∈ m, excl ≠ some e.1 ∧ (m.foldl (scanStep excl) acc) = (some e.1, e.2) := by
  induction m generalizing acc with
  | nil => exact Or.inl rfl
  | cons u rest ih =>
    rw [List.foldl_cons]
    by_cases hc : excl ≠ some u.1 ∧ u.2 > acc.2
    · have hstep : scanStep excl acc u = (some u.1, u.2) := by
        simp only [scanStep, if_pos hc]
      rw [hstep]
      rcases ih (some u.1, u.2) with h | ⟨e, he, hex, hres⟩
      · exact Or.inr ⟨u, List.mem_cons_self _ _, hc.1, h⟩
      · exact Or.inr ⟨e, List.mem_cons_of_mem _ he, hex, hres⟩
    · have hstep : scanStep excl acc u = acc := by
        simp only [scanStep, if_neg hc]
      rw [hstep]
      rcases ih acc with h | ⟨e, he, hex, hres⟩
      · exact Or.inl h
      · exact Or.inr ⟨e, List.mem_cons_of_mem _ he, hex, hres⟩

/-- The two counter scans of `scanMaxTgc`, specified: the result is either
the untouched initial accumulator or the first maximizing entry, and it
dominates every eligible entry. -/
theorem scanMaxTgc_spec (m : CntMap) (excl : Option String) :
    ((scanMaxTgc m excl = (none, 0)) ∨
      ∃ e ∈ m, excl ≠ some e.1 ∧ scanMaxTgc m excl = (some e.1, e.2)) ∧
    ∀ e ∈ m, excl ≠ some e.1 → e.2 ≤ (scanMaxTgc m excl).2 := by
  constructor
  · exact foldl_scanStep_cases excl m (none, 0)
  · exact foldl_scanStep_le excl m (none, 0)

/-- What the decision of `trackByMaxTones` implies when it reports an
active SELCAL: its condition held, the output fields carry the two scans'
results, and the counters are those of the queue maintenance. -/
theorem trackByMaxTones_active_cond (freq_hz : Int) (ts : String) (s : MonState)
    (trec : TonesRecord) (ws : ℕ) (mgc : Int) (res : Output)
    (h : (trackByMaxTones freq_hz ts s trec ws mgc res).2.1.is_active = true) :
    ((scanMaxTgc (updateQueues s trec ws).tonesCnt1
        (scanMaxTgc (updateQueues s trec ws).tonesCnt2 none).1).2 ≥ mgc ∧
      (scanMaxTgc (updateQueues s trec ws).tonesCnt2 none).2 ≥ mgc ∧
      (scanMaxTgc (updateQueues s trec ws).tonesCnt1
        (scanMaxTgc (updateQueues s trec ws).tonesCnt2 none).1).1 ≠
        (scanMaxTgc (updateQueues s trec ws).tonesCnt2 none).1) ∧
    (trackByMaxTones freq_hz ts s trec ws mgc res).2.1.selcal =
      some (optStr (scanMaxTgc (updateQueues s trec ws).tonesCnt1
          (scanMaxTgc (updateQueues s trec ws).tonesCnt2 none).1).1 ++ "-" ++
        optStr (scanMaxTgc (updateQueues s trec ws).tonesCnt2 none).1) ∧
    (trackByMaxTones freq_hz ts s trec ws mgc res).2.1.tg1 =
      (scanMaxTgc (updateQueues s trec ws).tonesCnt1
        (scanMaxTgc (updateQueues s trec ws).tonesCnt2 none).1).1 ∧
    (trackByMaxTones freq_hz ts s trec ws mgc res).2.1.tg1_cnt =
      (scanMaxTgc (updateQueues s trec ws).tonesCnt1
        (scanMaxTgc (updateQueues s trec ws).tonesCnt2 none).1).2 ∧
    (trackByMaxTones freq_hz ts s trec ws mgc res).2.1.tg2 =
      (scanMaxTgc (updateQueues s trec ws).tonesCnt2 none).1 ∧
    (trackByMaxTones freq_hz ts s trec ws mgc res).2.1.tg2_cnt =
      (scanMaxTgc (updateQueues s trec ws).tonesCnt2 none).2 ∧
    (trackByMaxTones freq_hz ts s trec ws mgc res).1.tonesCnt1 =
      (updateQueues s trec ws).tonesCnt1 ∧
    (trackByMaxTones freq_hz ts s trec ws mgc res).1.tonesCnt2 =
      (updateQueues s trec ws).tonesCnt2 := by
  simp only [trackByMaxTones] at h ⊢
  split_ifs at h ⊢ with hc hr <;>
    exact ⟨hc, rfl, rfl, rfl, rfl, rfl, rfl, rfl⟩

/-- C6 counterexample: with `min_group_cnt = 0` the very first track call
reports `is_active = true` although cnt1 is empty — tg1 is `None`, not a
TGC, and the code string is `"None-AB"`. -/
theorem c6_counterexample :
    (trackTones 8864 tsA freshState rAB 1 0 100).2.1.is_active = true ∧
    (trackTones 8864 tsA freshState rAB 1 0 100).2.1.tg1 = none ∧
    (trackTones 8864 tsA freshState rAB 1 0 100).2.1.tg1_cnt = 0 ∧
    (trackTones 8864 tsA freshState rAB 1 0 100).2.1.selcal = some "None-AB" := by decide

/-- C6 (amended): for every track call with `min_group_cnt ≥ 1`, if
method 1 reports `is_active = true` then tg2 is a TGC whose count is an
entry of cnt2 dominating every entry of cnt2, tg1 is a TGC (≠ tg2) whose
count is an entry of cnt1 dominating every entry of cnt1 other than tg2's,
both counts are at least `min_group_cnt`, and selcal is the string
`"tg1-tg2"`.  (With `min_group_cnt ≤ 0` the call can be active with
`tg1 = None`; see the counterexample.) -/
theorem c6_method1_active_spec (freq_hz : Int) (ts : String) (s : MonState)
    (trec : TonesRecord) (ws : ℕ) (mgc : Int) (ms : ℚ)
    (hmgc : 1 ≤ mgc)
    (hact : (trackTones freq_hz ts s trec ws mgc ms).2.1.is_active = true) :
    ∃ g1 g2 : String,
      (trackTones freq_hz ts s trec ws mgc ms).2.1.tg1 = some g1 ∧
      (trackTones freq_hz ts s trec ws mgc ms).2.1.tg2 = some g2 ∧
      g1 ≠ g2 ∧
      (trackTones freq_hz ts s trec ws mgc ms).2.1.selcal = some (g1 ++ "-" ++ g2) ∧
      mgc ≤ (trackTones freq_hz ts s trec ws mgc ms).2.1.tg1_cnt ∧
      mgc ≤ (trackTones freq_hz ts s trec ws mgc ms).2.1.tg2_cnt ∧
      (g1, (trackTones freq_hz ts s trec ws mgc ms).2.1.tg1_cnt) ∈
        (trackTones freq_hz ts s trec ws mgc ms).1.tonesCnt1 ∧
      (g2, (trackTones freq_hz ts s trec ws mgc ms).2.1.tg2_cnt) ∈
        (trackTones freq_hz ts s trec ws mgc ms).1.tonesCnt2 ∧
      (∀ e ∈ (trackTones freq_hz ts s trec ws mgc ms).1.tonesCnt2,
        e.2 ≤ (trackTones freq_hz ts s trec ws mgc ms).2.1.tg2_cnt) ∧
      (∀ e ∈ (trackTones freq_hz ts s trec ws mgc ms).1.tonesCnt1,
        e.1 ≠ g2 → e.2 ≤ (trackTones freq_hz ts s trec ws mgc ms).2.1.tg1_cnt) := by
  have hpass := trackByScore_passthrough freq_hz ts
    (trackByMaxTones freq_hz ts s trec ws mgc { current_tgc := trec.gtc }).1 ms
    (trackByMaxTones freq_hz ts s trec ws mgc { current_tgc := trec.gtc }).2.1
  have hcntf := trackByScore_cnt_fields freq_hz ts
    (trackByMaxTones freq_hz ts s trec ws mgc { current_tgc := trec.gtc }).1 ms
    (trackByMaxTones freq_hz ts s trec ws mgc { current_tgc := trec.gtc }).2.1
  have hmt : (trackByMaxTones freq_hz ts s trec ws mgc
      { current_tgc := trec.gtc }).2.1.is_active = true := by
    simp only [trackTones] at hact
    rw [hpass.1] at hact
    exact hact
  obtain ⟨⟨hcnt1, hcnt2, hne⟩, hsel, htg1, htg1c, htg2, htg2c, hsc1, hsc2⟩ :=
    trackByMaxTones_active_cond freq_hz ts s trec ws mgc { current_tgc := trec.gtc } hmt
  obtain ⟨hq2cases, hq2le⟩ := scanMaxTgc_spec (updateQueues s trec ws).tonesCnt2 none
  obtain ⟨hq1cases, hq1le⟩ := scanMaxTgc_spec (updateQueues s trec ws).tonesCnt1
    (scanMaxTgc (updateQueues s trec ws).tonesCnt2 none).1
  rcases hq2cases with hz | ⟨e2, he2, _, heq2⟩
  · rw [hz] at hcnt2
    simp at hcnt2
    omega
  rcases hq1cases with hz | ⟨e1, he1, hex1, heq1⟩
  · rw [hz] at hcnt1
    simp at hcnt1
    omega
  have hg1g2 : e1.1 ≠ e2.1 := by
    intro hcc
    apply hne
    rw [heq1, heq2, hcc]
  refine ⟨e1.1, e2.1, ?_, ?_, hg1g2, ?_, ?_, ?_, ?_, ?_, ?_, ?_⟩
  · simp only [trackTones]
    rw [hpass.2.2.1, htg1, heq1]
  · simp only [trackTones]
    rw [hpass.2.2.2.2.1, htg2, heq2]
  · simp only [trackTones]
    rw [hpass.2.1, hsel, heq1, heq2]
    simp [optStr]
  · simp only [trackTones]
    rw [hpass.2.2.2.1, htg1c, heq1]
    rw [heq1] at hcnt1
    exact hcnt1
  · simp only [trackTones]
    rw [hpass.2.2.2.2.2, htg2c, heq2]
    rw [heq2] at hcnt2
    exact hcnt2
  · simp only [trackTones]
    rw [hpass.2.2.2.1, htg1c, heq1, hcntf.1, hsc1]
    simpa using he1
  · simp only [trackTones]
    rw [hpass.2.2.2.2.2, htg2c, heq2, hcntf.2.1, hsc2]
    simpa using he2
  · simp only [trackTones]
    rw [hcntf.2.1, hsc2, hpass.2.2.2.2.2, htg2c]
    intro e he
    exact hq2le e he (by simp)
  · simp only [trackTones]
    rw [hcntf.1, hsc1, hpass.2.2.2.1, htg1c]
    intro e he hne2
    apply hq1le e he
    rw [heq2]
    intro hcc
    apply hne2
    have := Option.some.inj hcc
    rw [this]

/-- C6 witness: the second call of the rAB, rCD run with window 1 and
min_group_cnt 1 is active, and the theorem instantiates there. -/
theorem c6_witness :
    ∃ g1 g2 : String,
      (trackTones 8864 tsA (trackTones 8864 tsA freshState rAB 1 1 100).1
        rCD 1 1 100).2.1.tg1 = some g1 ∧
      (trackTones 8864 tsA (trackTones 8864 tsA freshState rAB 1 1 100).1
        rCD 1 1 100).2.1.tg2 = some g2 ∧
      g1 ≠ g2 ∧
      (trackTones 8864 tsA (trackTones 8864 tsA freshState rAB 1 1 100).1
        rCD 1 1 100).2.1.selcal = some (g1 ++ "-" ++ g2) ∧
      (1:Int) ≤ (trackTones 8864 tsA (trackTones 8864 tsA freshState rAB 1 1 100).1
        rCD 1 1 100).2.1.tg1_cnt ∧
      (1:Int) ≤ (trackTones 8864 tsA (trackTones 8864 tsA freshState rAB 1 1 100).1
        rCD 1 1 100).2.1.tg2_cnt ∧
      (g1, (trackTones 8864 tsA (trackTones 8864 tsA freshState rAB 1 1 100).1
        rCD 1 1 100).2.1.tg1_cnt) ∈
        (trackTones 8864 tsA (trackTones 8864 tsA freshState rAB 1 1 100).1
        rCD 1 1 100).1.tonesCnt1 ∧
      (g2, (trackTones 8864 tsA (trackTones 8864 tsA freshState rAB 1 1 100).1
        rCD 1 1 100).2.1.tg2_cnt) ∈
        (trackTones 8864 tsA (trackTones 8864 tsA freshState rAB 1 1 100).1
        rCD 1 1 100).1.tonesCnt2 ∧
      (∀ e ∈ (trackTones 8864 tsA (trackTones 8864 tsA freshState rAB 1 1 100).1
        rCD 1 1 100).1.tonesCnt2,
        e.2 ≤ (trackTones 8864 tsA (trackTones 8864 tsA freshState rAB 1 1 100).1
        rCD 1 1 100).2.1.tg2_cnt) ∧
      (∀ e ∈ (trackTones 8864 tsA (trackTones 8864 tsA freshState rAB 1 1 100).1
        rCD 1 1 100).1.tonesCnt1,
        e.1 ≠ g2 → e.2 ≤ (trackTones 8864 tsA (trackTones 8864 tsA freshState rAB 1 1 100).1
        rCD 1 1 100).2.1.tg1_cnt) :=
  c6_method1_active_spec 8864 tsA (trackTones 8864 tsA freshState rAB 1 1 100).1
    rCD 1 1 100 (by norm_num) (by decide)

/-
C7: method 2 cannot fire during the first window_size calls.
-/

/-- `top2` of the all-zero score list: indices 0 and 1, both values 0. -/
theorem top2_zero_vec : top2 (fun _ => 0) [] = ((0, 1), (0, 0)) := by decide

theorem pushQ2_q1score (s : MonState) (trec : TonesRecord) :
    (pushQ2 s trec).tonesQ1Score = s.tonesQ1Score := rfl

/-- When Q2 still fits in the window after the append, no roll happens. -/
theorem updateQueues_no_roll (s : MonState) (trec : TonesRecord) (ws : ℕ)
    (h : s.tonesQ2.length + 1 ≤ ws) :
    updateQueues s trec ws = pushQ2 s trec := by
  simp only [updateQueues]
  rw [if_neg]
  rw [pushQ2_q2_length]
  omega

/-- When the top value of the Q1 score list is below the threshold,
`trackByScore` reports `is_active_BS = false`. -/
theorem trackByScore_not_active (freq_hz : Int) (ts : String) (s : MonState)
    (ms : ℚ) (res : Output)
    (h : ¬ (top2 s.tonesQ1Score []).2.1 ≥ ms) :
    (trackByScore freq_hz ts s ms res).2.1.is_active_BS = some false := by
  simp only [trackByScore]
  rw [if_neg (fun hc => h hc.1)]
  split_ifs <;> rfl

/-- `trackByScore` keeps a pointwise-zero Q1 score list pointwise zero in
every branch (the falling-edge reset rewrites it with zeros). -/
theorem trackByScore_scoreQ1_zero (freq_hz : Int) (ts : String) (s : MonState)
    (ms : ℚ) (res : Output) (h : ∀ t, s.tonesQ1Score t = 0) :
    ∀ t, (trackByScore freq_hz ts s ms res).1.tonesQ1Score t = 0 := by
  simp only [trackByScore, resetToneScores]
  split_ifs <;> intro t <;> first | exact h t | rfl

/-- One warm-up call: Q1 still empty and its score list still zero, Q2 one
longer, and method 2 inactive. -/
theorem trackTones_warm_step (freq_hz : Int) (ts : String) (s : MonState)
    (trec : TonesRecord) (ws : ℕ) (mgc : Int) (ms : ℚ)
    (hms : 0 < ms) (hq1 : s.tonesQ1 = []) (hsc : ∀ t, s.tonesQ1Score t = 0)
    (hlen : s.tonesQ2.length + 1 ≤ ws) :
    (trackTones freq_hz ts s trec ws mgc ms).2.1.is_active_BS = some false ∧
    (trackTones freq_hz ts s trec ws mgc ms).1.tonesQ1 = [] ∧
    (∀ t, (trackTones freq_hz ts s trec ws mgc ms).1.tonesQ1Score t = 0) ∧
    (trackTones freq_hz ts s trec ws mgc ms).1.tonesQ2.length = s.tonesQ2.length + 1 := by
  have hupd := updateQueues_no_roll s trec ws hlen
  obtain ⟨hf1, hf2, hf3, hf4⟩ := trackByMaxTones_fields freq_hz ts s trec ws mgc
    { current_tgc := trec.gtc }
  rw [hupd] at hf1 hf2 hf3 hf4
  have hmt1 : (trackByMaxTones freq_hz ts s trec ws mgc
      { current_tgc := trec.gtc }).1.tonesQ1Score = s.tonesQ1Score := by
    rw [hf3, pushQ2_q1score]
  have hmt1q : (trackByMaxTones freq_hz ts s trec ws mgc
      { current_tgc := trec.gtc }).1.tonesQ1 = [] := by
    rw [hf1, pushQ2_q1, hq1]
  have hmt2len : (trackByMaxTones freq_hz ts s trec ws mgc
      { current_tgc := trec.gtc }).1.tonesQ2.length = s.tonesQ2.length + 1 := by
    rw [hf2]
    exact pushQ2_q2_length s trec
  have hzero : ∀ t, (trackByMaxTones freq_hz ts s trec ws mgc
      { current_tgc := trec.gtc }).1.tonesQ1Score t = 0 := by
    intro t
    rw [hmt1]
    exact hsc t
  have hfun : (trackByMaxTones freq_hz ts s trec ws mgc
      { current_tgc := trec.gtc }).1.tonesQ1Score = (fun _ => 0) := funext hzero
  have hbsf := trackByScore_cnt_fields freq_hz ts
    (trackByMaxTones freq_hz ts s trec ws mgc { current_tgc := trec.gtc }).1 ms
    (trackByMaxTones freq_hz ts s trec ws mgc { current_tgc := trec.gtc }).2.1
  refine ⟨?_, ?_, ?_, ?_⟩
  · simp only [trackTones]
    apply trackByScore_not_active
    rw [hfun, top2_zero_vec]
    simpa using not_le.2 hms
  · simp only [trackTones]
    rw [hbsf.2.2.1, hmt1q]
  · simp only [trackTones]
    apply trackByScore_scoreQ1_zero
    exact hzero
  · simp only [trackTones]
    rw [hbsf.2.2.2, hmt2len]

/-- During any run that stays within the window, every output of method 2
is inactive. -/
theorem runTrack_warm (freq_hz : Int) (ws : ℕ) (mgc : Int) (ms : ℚ) (hms : 0 < ms) :
    ∀ (l : List (TonesRecord × String)) (s : MonState),
      s.tonesQ1 = [] → (∀ t, s.tonesQ1Score t = 0) →
      s.tonesQ2.length + l.length ≤ ws →
      ∀ out ∈ (runTrack freq_hz ws mgc ms s l).2.1, out.is_active_BS = some false := by
  intro l
  induction l with
  | nil =>
    intro s _ _ _ out hout
    simp [runTrack] at hout
  | cons p rest ih =>
    obtain ⟨r, ts⟩ := p
    intro s hq1 hsc hlen out hout
    have hstep := trackTones_warm_step freq_hz ts s r ws mgc ms hms hq1 hsc
      (by simp at hlen; omega)
    simp only [runTrack] at hout
    rcases List.mem_cons.1 hout with rfl | hmem
    · exact hstep.1
    · exact ih _ hstep.2.1 hstep.2.2.1
        (by rw [hstep.2.2.2]; simp at hlen ⊢; omega) out hmem

/-- C7: on a fresh DecoderState, for every positive min_score, method 2
never reports `is_active_BS = true` during the first `window_size` track
calls: scoreQ1 is fed only when a record rolls from Q2 into Q1, which
cannot happen before call `window_size + 1`, so the top-two Q1 score
values stay at 0 < min_score throughout the warm-up. -/
theorem c7_warmup_no_byscore (freq_hz : Int) (ws : ℕ) (mgc : Int) (ms : ℚ)
    (inputs : List (TonesRecord × String)) (hms : 0 < ms) :
    ∀ out ∈ (runTrack freq_hz ws mgc ms freshState (inputs.take ws)).2.1,
      out.is_active_BS ≠ some true := by
  intro out hout
  have hfalse := runTrack_warm freq_hz ws mgc ms hms (inputs.take ws) freshState
    (by simp [freshState]) (by intro t; simp [freshState])
    (by simp [freshState]) out hout
  rw [hfalse]
  simp

/-- C7 witness: a concrete three-record run truncated to its window. -/
theorem c7_witness :
    (0:ℚ) < 1 ∧
    ∀ out ∈ (runTrack 8864 2 1 1 freshState
      ([(rAB, tsA), (rCD, tsA), (rEF, tsA)].take 2)).2.1,
      out.is_active_BS ≠ some true :=
  ⟨by norm_num,
   c7_warmup_no_byscore 8864 2 1 1 [(rAB, tsA), (rCD, tsA), (rEF, tsA)] (by norm_num)⟩

end Selcald
